import Mathlib

/-!
A shallow embedding of the shell `lsh` (`src/lsh.c`) and the properties of its
tokenizer, builtins, launcher and loop.

Modelling conventions.

* A C string (`char *`) is the list of its characters before the terminating
  NUL.  A NULL-terminated vector (`char **`) is read as the list of its
  entries before the first NULL.  The buffer `getline` fills may hold NUL
  characters; the shell reads it as a C string, see `cstr`.
* `int` counters (`position`, `bufsize`) are integers that must stay within
  the range of `int`; a sum beyond it has no defined behaviour.  `INT_MAX` is
  that of an `int` of 32 bits, and `size_t` has 64 bits, so that
  `bufsize * sizeof(char *)` does not wrap.
* The operating system and the C library are an oracle `OS`; every answer may
  depend on the whole state of the world at the time of the call.
* A call either returns, ends the process, replaces the process image, blocks
  for ever, or has no defined behaviour: see `Res`.
-/

namespace Lsh

/-! ## Data model -/

/-- The contents of a C string. -/
abbrev CStr := List Char

/-- The constant `LSH_TOK_BUFSIZE`. -/
def LSH_TOK_BUFSIZE : Nat := 64

/-- The string `LSH_TOK_DELIM`: space, tab, carriage return, newline, bell. -/
def LSH_TOK_DELIM : CStr := " \t\r\n\x07".toList

/-- The exit status `EXIT_SUCCESS`. -/
def EXIT_SUCCESS : Nat := 0

/-- The exit status `EXIT_FAILURE`. -/
def EXIT_FAILURE : Nat := 1

/-- The largest `int` where `int` has 32 bits. -/
def INT_MAX : Int := 2147483647

/-- Membership of a character in the delimiter set handed to `strtok`. -/
def isDelim (c : Char) : Bool := LSH_TOK_DELIM.contains c

/-- The C string that starts a buffer: its characters before the first NUL. -/
def cstr (buf : List Char) : CStr := buf.takeWhile (fun c => c != '\x00')

/-- One entry of the `char **tokens` block. -/
inductive Cell where
  | uninit
  | null
  | ptr (s : CStr)
deriving DecidableEq, Repr

/-- Ways in which `lsh_split_line` can fail to return. -/
inductive Fault where
  | alloc        -- malloc or realloc returned NULL
  | outOfBounds  -- a store beyond the allocated block
  | overflow     -- an `int` sum beyond the range of `int`
  | fuel         -- the model ran out of steps
deriving DecidableEq, Repr

/-- The variables of `lsh_split_line` at the head of its `while` loop.
`token` is the last result of `strtok` (`none` for NULL) and `saved` is the
part of the line `strtok` has not looked at yet. -/
structure SplitState where
  token : Option CStr
  saved : CStr
  bufsize : Int
  position : Int
  tokens : List Cell
deriving DecidableEq, Repr

/-! ## The tokenizer -/

/-- One call of `strtok(_, LSH_TOK_DELIM)` on the text still to be scanned:
skip the leading delimiters; at the end of the string return NULL; otherwise
the token runs up to the next delimiter, which is overwritten by NUL, and the
scan resumes just after it. -/
def strtok (s : CStr) : Option (CStr × CStr) :=
  match s.dropWhile isDelim with
  | [] => none
  | c :: cs =>
    some (c :: cs.takeWhile (fun x => !isDelim x),
          (cs.dropWhile (fun x => !isDelim x)).drop 1)

/-- The state after `token = strtok(...)`. -/
def SplitState.advance (s : SplitState) (bufsize position : Int) (tokens : List Cell) :
    SplitState :=
  match strtok s.saved with
  | none => ⟨none, [], bufsize, position, tokens⟩
  | some (tok, rest) => ⟨some tok, rest, bufsize, position, tokens⟩

/-- A value computed as an `int` where the largest `int` is `intMax`: it must
lie in the range of `int`. -/
def int_val (intMax v : Int) : Except Fault Int :=
  if -intMax - 1 ≤ v ∧ v ≤ intMax then .ok v else .error .overflow

/-- The sum of two `int` values. -/
def int_add (intMax a b : Int) : Except Fault Int := int_val intMax (a + b)

/-- A block of `n` entries as returned by `malloc`. -/
def malloc (n : Nat) : List Cell := List.replicate n Cell.uninit

/-- The block after `realloc` to `n` entries: the old entries are kept. -/
def realloc (block : List Cell) (n : Nat) : List Cell :=
  block.take n ++ List.replicate (n - block.length) Cell.uninit

/-- The assignment `tokens[i] = v`, defined only inside the block. -/
def store (block : List Cell) (i : Int) (v : Cell) : Except Fault (List Cell) :=
  if 0 ≤ i ∧ i < block.length then .ok (block.set i.toNat v) else .error .outOfBounds

/-- The state on entry to the `while` loop of `lsh_split_line`: `bufsize` is
set to `LSH_TOK_BUFSIZE`, the block is allocated, `position` is 0 and `strtok`
is called on the line. -/
def split_init (allocOk : Nat → Bool) (intMax : Int) (line : CStr) :
    Except Fault SplitState :=
  match int_val intMax LSH_TOK_BUFSIZE with
  | .error e => .error e
  | .ok bufsize =>
    if allocOk bufsize.toNat then
      .ok (SplitState.advance ⟨none, line, bufsize, 0, malloc bufsize.toNat⟩ bufsize 0
        (malloc bufsize.toNat))
    else .error .alloc

/-- One pass through the body of the `while` loop, entered with `token = tok`. -/
def split_body (allocOk : Nat → Bool) (intMax : Int) (tok : CStr) (s : SplitState) :
    Except Fault SplitState :=
  match store s.tokens s.position (.ptr tok) with
  | .error e => .error e
  | .ok tokens =>
    match int_add intMax s.position 1 with
    | .error e => .error e
    | .ok position =>
      if position ≥ s.bufsize then
        match int_add intMax s.bufsize LSH_TOK_BUFSIZE with
        | .error e => .error e
        | .ok bufsize =>
          if allocOk bufsize.toNat then
            .ok (s.advance bufsize position (realloc tokens bufsize.toNat))
          else .error .alloc
      else .ok (s.advance s.bufsize position tokens)

/-- The `while (token != NULL)` loop followed by the store of the terminator. -/
def split_loop (allocOk : Nat → Bool) (intMax : Int) :
    Nat → SplitState → Except Fault (List Cell)
  | 0, _ => .error .fuel
  | n + 1, s =>
    match s.token with
    | none => store s.tokens s.position .null
    | some tok =>
      match split_body allocOk intMax tok s with
      | .error e => .error e
      | .ok s' => split_loop allocOk intMax n s'

/-- The function `lsh_split_line`, with the allocator as an oracle (`allocOk n`
tells whether a block of `n` pointers is granted) and `intMax` the largest
`int` of the platform.  The result is the block. -/
def lsh_split_line_mem (allocOk : Nat → Bool) (intMax : Int) (line : CStr) :
    Except Fault (List Cell) :=
  match split_init allocOk intMax line with
  | .error e => .error e
  | .ok s => split_loop allocOk intMax (line.length + 1) s

/-- The entries of a NULL-terminated vector. -/
def argv : List Cell → List CStr
  | .ptr s :: rest => s :: argv rest
  | _ => []

/-- The token sequence `lsh_split_line` returns when every allocation
succeeds and `int` can count the line: the largest `int` is `INT_MAX`, or
more for a line that `INT_MAX` cannot count.  The value is `none` if no
sequence is returned. -/
def lsh_split_line (line : CStr) : Option (List CStr) :=
  match lsh_split_line_mem (fun _ => true) (max INT_MAX (line.length + LSH_TOK_BUFSIZE)) line with
  | .ok block => some (argv block)
  | .error _ => none

/-- The states at the head of the `while` loop that a run on `line` visits. -/
inductive LoopHead (allocOk : Nat → Bool) (intMax : Int) (line : CStr) :
    SplitState → Prop where
  | init {s : SplitState} :
      split_init allocOk intMax line = .ok s → LoopHead allocOk intMax line s
  | body {s s' : SplitState} {tok : CStr} :
      LoopHead allocOk intMax line s → s.token = some tok →
      split_body allocOk intMax tok s = .ok s' → LoopHead allocOk intMax line s'

/-- The maximal runs of non-delimiter characters of a line, left to right: the
line is cut at every delimiter and the empty pieces are dropped. -/
def maximalRuns (line : CStr) : List CStr :=
  (line.splitOnP isDelim).filter (fun t => !t.isEmpty)

/-- The size `bufsize` has when `n` tokens are stored: the first multiple of
`LSH_TOK_BUFSIZE` above `n`. -/
def bufsizeFor (n : Nat) : Nat := LSH_TOK_BUFSIZE * (n / LSH_TOK_BUFSIZE + 1)

/-- The block `lsh_split_line` returns for the token sequence `toks`: the
tokens, the terminator, and the entries of the block that were never written.
The block has one more chunk of `LSH_TOK_BUFSIZE` entries than the tokens
fill. -/
def tokenBlock (toks : List CStr) : List Cell :=
  toks.map Cell.ptr ++ Cell.null ::
    List.replicate (bufsizeFor toks.length - toks.length - 1) Cell.uninit

/-- The loop invariant of `lsh_split_line` once the tokens `acc` are stored:
`position` counts them, the block holds them in its first entries, its size is
`bufsize`, `bufsize` is the first multiple of `LSH_TOK_BUFSIZE` above
`position`, and it is an `int`. -/
def SplitInv (intMax : Int) (s : SplitState) (acc : List CStr) : Prop :=
  s.position = acc.length ∧
  s.tokens = acc.map Cell.ptr ++ List.replicate (s.bufsize.toNat - acc.length) Cell.uninit ∧
  s.bufsize = bufsizeFor acc.length ∧
  s.bufsize ≤ intMax

/-- The tokens still to be stored at a loop head. -/
def SplitState.pending (s : SplitState) : List CStr :=
  match s.token with
  | none => []
  | some tok => tok :: maximalRuns s.saved

/-- A bound on the number of loop heads still to come. -/
def SplitState.steps (s : SplitState) : Nat :=
  match s.token with
  | none => 1
  | some _ => s.saved.length + 2

/-- A line of `n` one-letter tokens, each followed by a space. -/
def tokenLine (n : Nat) : CStr := (List.replicate n "a ".toList).flatten

/-! ## The world outside the shell -/

/-- The status `waitpid(pid, &status, WUNTRACED)` reports for a child. -/
inductive WaitStatus where
  | exited (code : Nat)
  | signaled (sig : Nat)
  | stopped (sig : Nat)
deriving DecidableEq, Repr

/-- The test `WIFEXITED(status)`. -/
def WIFEXITED : WaitStatus → Bool
  | .exited _ => true
  | _ => false

/-- The test `WIFSIGNALED(status)`. -/
def WIFSIGNALED : WaitStatus → Bool
  | .signaled _ => true
  | _ => false

/-- The system calls the shell and its children make, as they happen. -/
inductive Event where
  | chdir (path : CStr) (ok : Bool)
  | fork (pid : Int)
  | execvp (file : Option CStr) (args : List CStr) (cwd : CStr) (ok : Bool)
  | waitpid (pid : Int) (status : WaitStatus)
deriving DecidableEq, Repr

/-- What a call of `getline` finds on standard input, short of end of input:
a line, as the characters put in the buffer (a NUL among them is possible),
or a read error. -/
inductive Input where
  | line (s : List Char)
  | error (msg : CStr)
deriving DecidableEq, Repr

/-- The state a process of the shell sees.
* `cwd`: the working directory, by the name it was last changed to.
* `errno`: the text of `strerror(errno)`.
* `stdout`: what the shell has written to the stream `stdout`, whether the C
  library has passed it on yet or still holds it in the buffer of the stream.
* `stderr`: what has been written to standard error.
* `trace`: the system calls made so far.
* `stdin`: what the calls of `getline` still to come will find, in order.
* `reflushed`: what children of the shell have written to standard output out
  of their copy of the buffer of `stdout`; the shell writes that text too. -/
structure World where
  cwd : CStr
  errno : CStr
  stdout : CStr
  stderr : CStr
  trace : List Event
  stdin : List Input
  reflushed : CStr
deriving DecidableEq, Repr

/-- The answers of the operating system and the C library.
* `alloc w n`: a block of `n` pointers is granted.
* `chdir w path`: `ok ()` when the call succeeds, `error e` when it fails
  with error text `e`.
* `fork w`: `ok n` when a child is created (its pid is `n + 1`), `error e`
  when `fork` fails.
* `execvp w file args`: `ok ()` when the program is found and started.
* `waitpid w pid`: the statuses the successive calls of `waitpid` on `pid`
  deliver, starting in world `w`; after the last one no call returns.
* `buffered w`: how many of the last characters of `stdout` are still in the
  buffer of the stream (none once the library has flushed it, as it does
  before reading from a terminal; all of them when nothing was flushed).
* `rewind w`: what is left to read on standard input after a child has
  called `exit`.  On a terminal or a pipe that is `w.stdin`; on a seekable
  file `exit` moves the shared read position back over what the shell has
  buffered but not yet consumed, so that text is found a second time. -/
structure OS where
  alloc : World → Nat → Bool
  chdir : World → CStr → Except CStr Unit
  fork : World → Except CStr Nat
  execvp : World → Option CStr → List CStr → Except CStr Unit
  waitpid : World → Int → List WaitStatus
  buffered : World → Nat
  rewind : World → List Input

/-- How a call ends. -/
inductive Res (α : Type) where
  | ret (v : α) (w : World)          -- the call returns `v`
  | exit (status : Nat) (w : World)  -- the process ends through `exit(status)`
  | exec (w : World)                 -- the process image is replaced
  | hang (w : World)                 -- the call blocks for ever
  | undefined (w : World)            -- no defined behaviour
  | more (w : World)                 -- the model has used up its steps
deriving DecidableEq, Repr

/-- The world in which a call ends. -/
def Res.world {α : Type} : Res α → World
  | .ret _ w => w
  | .exit _ w => w
  | .exec w => w
  | .hang w => w
  | .undefined w => w
  | .more w => w

/-- Sequencing: go on with `f` when the call returns, stop otherwise. -/
def Res.bind {α β : Type} (r : Res α) (f : α → World → Res β) : Res β :=
  match r with
  | .ret v w => f v w
  | .exit c w => .exit c w
  | .exec w => .exec w
  | .hang w => .hang w
  | .undefined w => .undefined w
  | .more w => .more w

/-- Record a system call. -/
def World.log (w : World) (e : Event) : World := { w with trace := w.trace ++ [e] }

/-- Text written to standard output (`printf`, `puts` without its newline). -/
def printf (s : String) (w : World) : World := { w with stdout := w.stdout ++ s.toList }

/-- The call `puts(s)`: the string and a newline on standard output. -/
def puts (s : String) (w : World) : World := printf "\n" (printf s w)

/-- The call `fprintf(stderr, s)`. -/
def fprintf_stderr (s : String) (w : World) : World :=
  { w with stderr := w.stderr ++ s.toList }

/-- The call `perror(s)`: the prefix, a colon and a space, the text of the current
error and a newline, on standard error. -/
def perror (s : String) (w : World) : World :=
  { w with stderr := w.stderr ++ s.toList ++ ": ".toList ++ w.errno ++ "\n".toList }

/-- The call `chdir(path)`: result and new world.  On success the directory
named by `path` becomes the working directory; the model keeps the name. -/
def chdir (os : OS) (path : CStr) (w : World) : Int × World :=
  match os.chdir w path with
  | .ok () => (0, { w.log (.chdir path true) with cwd := path })
  | .error e => (-1, { w.log (.chdir path false) with errno := e })

/-- The call `exit(status)` in a child of the shell.  Before the child ends,
`exit` flushes the child's copies of the shell's streams: the characters of
`stdout` still in the buffer are written by the child, although the shell
will write them as well, and standard input is left as `rewind` says.  (In
the shell itself `exit` writes what `stdout` still holds, which `stdout`
counts already.) -/
def exit_child (os : OS) (status : Nat) (w : World) : Res Int :=
  .exit status
    { w with reflushed := w.reflushed ++ w.stdout.drop (w.stdout.length - os.buffered w),
             stdin := os.rewind w }

/-! ## Launching programs -/

/-- The `do ... while (!WIFEXITED(status) && !WIFSIGNALED(status))` loop of the
parent, fed with the statuses `waitpid` delivers. -/
def wait_loop (pid : Int) : List WaitStatus → World → Res Unit
  | [], w => .hang w
  | status :: more, w =>
    let w1 := w.log (.waitpid pid status)
    if !WIFEXITED status && !WIFSIGNALED status then wait_loop pid more w1
    else .ret () w1

/-- The body of `lsh_launch` after `fork` has returned `pid` in the process
that runs it: the child (`pid == 0`), the shell after a failed `fork`
(`pid < 0`), or the shell as parent. -/
def lsh_launch_pid (os : OS) (pid : Int) (args : List CStr) (w : World) : Res Int :=
  if pid == 0 then
    match os.execvp w args.head? args with
    | .ok () => .exec (w.log (.execvp args.head? args w.cwd true))
    | .error e =>
      let w1 := { w.log (.execvp args.head? args w.cwd false) with errno := e }
      exit_child os EXIT_FAILURE (perror "lsh" w1)
  else if pid < 0 then
    .ret 1 (perror "lsh" w)
  else
    (wait_loop pid (os.waitpid w pid) w).bind fun _ w1 => .ret 1 w1

/-- The function `lsh_launch` as the shell runs it.  After a successful `fork`
the child runs the same body with `pid == 0`; what it writes, the calls it
makes and what it does to standard input are seen in the world the parent
goes on in, its working directory and `errno` are its own. -/
def lsh_launch (os : OS) (args : List CStr) (w : World) : Res Int :=
  match os.fork w with
  | .error e => lsh_launch_pid os (-1) args { w.log (.fork (-1)) with errno := e }
  | .ok n =>
    let pid : Int := n + 1
    let w1 := w.log (.fork pid)
    let wc := (lsh_launch_pid os 0 args w1).world
    lsh_launch_pid os pid args { wc with cwd := w1.cwd, errno := w1.errno }

/-! ## Builtins and dispatch -/

/-- The array `builtin_str`. -/
def builtin_str : List String := ["cd", "help", "exit"]

/-- The function `lsh_num_builtins`: the number of entries of `builtin_str`. -/
def lsh_num_builtins : Nat := builtin_str.length

/-- The builtin `lsh_cd`. -/
def lsh_cd (os : OS) (args : List CStr) (w : World) : Res Int :=
  match args.get? 1 with
  | none => .ret 1 (fprintf_stderr "lsh: expected argument to \"cd\"\n" w)
  | some dir =>
    match chdir os dir w with
    | (r, w1) => if r != 0 then .ret 1 (perror "lsh" w1) else .ret 1 w1

/-- The builtin `lsh_help`. -/
def lsh_help (_os : OS) (_args : List CStr) (w : World) : Res Int :=
  let w1 := puts "Stephen Brennan's LSH" w
  let w2 := puts "Type program names and arguments, and hit enter." w1
  let w3 := puts "The following are built in:" w2
  let w4 := (List.range lsh_num_builtins).foldl
    (fun w i => printf "\n" (printf (builtin_str.getD i "") (printf "   " w))) w3
  .ret 1 (puts "Use the man command for information on other programs." w4)

/-- The builtin `lsh_exit`. -/
def lsh_exit (_os : OS) (_args : List CStr) (w : World) : Res Int := .ret 0 w

/-- The array `builtin_func`, entry for entry alongside `builtin_str`. -/
def builtin_func : List (OS → List CStr → World → Res Int) := [lsh_cd, lsh_help, lsh_exit]

/-- The `for` loop of `lsh_execute` over the builtins still to be compared,
falling through to `lsh_launch`. -/
def lsh_execute_from (os : OS) (args : List CStr) (cmd : CStr) (w : World) :
    List (String × (OS → List CStr → World → Res Int)) → Res Int
  | [] => lsh_launch os args w
  | (name, func) :: rest =>
    if cmd = name.toList then func os args w else lsh_execute_from os args cmd w rest

/-- The function `lsh_execute`. -/
def lsh_execute (os : OS) (args : List CStr) (w : World) : Res Int :=
  match args.head? with
  | none => .ret 1 w
  | some cmd =>
    lsh_execute_from os args cmd w ((builtin_str.zip builtin_func).take lsh_num_builtins)

/-! ## The loop -/

/-- The function `lsh_read_line`: `getline` takes the next item of standard
input.  The caller gets the buffer as a C string, so it sees the line up to
its first NUL. -/
def lsh_read_line (w : World) : Res CStr :=
  match w.stdin with
  | .line s :: rest => .ret (cstr s) { w with stdin := rest }
  | [] => .exit EXIT_SUCCESS w
  | .error e :: rest => .exit EXIT_FAILURE (perror "readline" { w with errno := e, stdin := rest })

/-- The two calls `args = lsh_split_line(line)` and `status = lsh_execute(args)`
of the loop body.  A failed allocation ends the process. -/
def lsh_run_line (os : OS) (line : CStr) (w : World) : Res Int :=
  match lsh_split_line_mem (os.alloc w) INT_MAX line with
  | .error .alloc => .exit EXIT_FAILURE (fprintf_stderr "lsh: allocation error\n" w)
  | .error _ => .undefined w
  | .ok block => lsh_execute os (argv block) w

/-- One pass through the body of the `do` loop of `lsh_loop`: prompt, read,
split, execute.  Its value is `status`. -/
def lsh_loop_body (os : OS) (w : World) : Res Int :=
  (lsh_read_line (printf "> " w)).bind fun line w1 => lsh_run_line os line w1

/-- The function `lsh_loop`, for at most the given number of passes. -/
def lsh_loop (os : OS) : Nat → World → Res Unit
  | 0, w => .more w
  | n + 1, w =>
    (lsh_loop_body os w).bind fun status w1 =>
      if status != 0 then lsh_loop os n w1 else .ret () w1

/-- The function `main`: run the loop, then return `EXIT_SUCCESS`. -/
def main (os : OS) (passes : Nat) (w : World) : Res Nat :=
  (lsh_loop os passes w).bind fun _ w1 => .ret EXIT_SUCCESS w1

/-- The world after `k` passes through the loop body. -/
def afterPasses (os : OS) : Nat → World → World
  | 0, w => w
  | k + 1, w => afterPasses os k (lsh_loop_body os w).world

/-- The tokens a pass of the loop gets from the line it reads: those of the
line up to its first NUL. -/
def lineTokens (l : List Char) : List CStr := maximalRuns (cstr l)

/-- The line has so few tokens that `bufsize` stays an `int` while they are
stored. -/
def shortLine (l : List Char) : Bool :=
  decide (((bufsizeFor (lineTokens l).length : Nat) : Int) ≤ INT_MAX)

/-- The children of the shell leave standard output and standard input
alone: either every `execvp` succeeds, so that no child calls `exit`, or
nothing of `stdout` is buffered and `exit` does not move the read position. -/
def OS.quietChildren (os : OS) : Prop :=
  (∀ w file args, os.execvp w file args = .ok ()) ∨
  (∀ w, os.buffered w = 0 ∧ os.rewind w = w.stdin)

/-! ## Sample environments -/

/-- A world at start-up in directory `/home`, with nothing to read. -/
def world0 : World :=
  { cwd := "/home".toList, errno := [], stdout := [], stderr := [], trace := [],
    stdin := [], reflushed := [] }

/-- An environment in which `/tmp` is the only directory one can change to,
every `fork` yields pid 42, programs named `pwd`, `echo` and `ls` are found,
and a child is first stopped, then exits normally.  Standard input and
output are a terminal: nothing stays buffered and `exit` moves nothing. -/
def os0 : OS where
  alloc := fun _ _ => true
  chdir := fun _ path =>
    if path = "/tmp".toList then .ok ()
    else .error "No such file or directory".toList
  fork := fun _ => .ok 41
  execvp := fun _ file _ =>
    if file ∈ [some "pwd".toList, some "echo".toList, some "ls".toList] then .ok ()
    else .error "No such file or directory".toList
  waitpid := fun _ _ => [.stopped 19, .exited 0]
  buffered := fun _ => 0
  rewind := fun w => w.stdin

/-- An environment short of resources: `fork` and `chdir` always fail, no block
larger than `LSH_TOK_BUFSIZE` pointers is granted, and a child, if there were
one, would stay stopped. -/
def os1 : OS where
  alloc := fun _ n => decide (n ≤ LSH_TOK_BUFSIZE)
  chdir := fun _ _ => .error "Permission denied".toList
  fork := fun _ => .error "Resource temporarily unavailable".toList
  execvp := fun _ _ _ => .error "No such file or directory".toList
  waitpid := fun _ _ => [.stopped 19]
  buffered := fun _ => 0
  rewind := fun w => w.stdin

/-- An environment whose standard input is a file read into the buffer at once
and whose standard output is not a terminal: all of `stdout` stays buffered,
and after the `exit` of a child the rest of the input is found twice.  No
program is found. -/
def os2 : OS where
  alloc := fun _ _ => true
  chdir := fun _ _ => .ok ()
  fork := fun _ => .ok 41
  execvp := fun _ _ _ => .error "No such file or directory".toList
  waitpid := fun _ _ => [.exited 1]
  buffered := fun w => w.stdout.length
  rewind := fun w => w.stdin ++ w.stdin

/-- The start-up world with the two lines `nosuchprog` and `exit` to read. -/
def world2 : World :=
  { world0 with stdin := [.line "nosuchprog".toList, .line "exit".toList] }

/-! ## Facts about the tokenizer -/

theorem maximalRuns_nil : maximalRuns [] = [] := by
  simp [maximalRuns, List.splitOnP_nil]

/-- Cutting at every delimiter: the first piece is the leading run of
non-delimiters, the other pieces come from what follows the first delimiter. -/
theorem splitOnP_run (s : CStr) :
    s.splitOnP isDelim = s.takeWhile (fun x => !isDelim x) ::
      (match s.dropWhile (fun x => !isDelim x) with
       | [] => []
       | _ :: r => r.splitOnP isDelim) := by
  induction s with
  | nil => simp [List.splitOnP_nil]
  | cons x xs ih =>
    rw [List.splitOnP_cons]
    by_cases hx : isDelim x = true
    · simp [hx]
    · have hx' : isDelim x = false := by simpa using hx
      simp only [hx', Bool.false_eq_true, if_false]
      rw [ih]
      simp [hx']

theorem maximalRuns_cons_delim {c : Char} (cs : CStr) (h : isDelim c = true) :
    maximalRuns (c :: cs) = maximalRuns cs := by
  simp [maximalRuns, List.splitOnP_cons, h]

theorem maximalRuns_cons_run {c : Char} (cs : CStr) (h : isDelim c = false) :
    maximalRuns (c :: cs) =
      (c :: cs.takeWhile (fun x => !isDelim x)) ::
        maximalRuns ((cs.dropWhile (fun x => !isDelim x)).drop 1) := by
  unfold maximalRuns
  rw [splitOnP_run (c :: cs)]
  cases hd : cs.dropWhile (fun x => !isDelim x) with
  | nil => simp [h, hd, List.splitOnP_nil]
  | cons d r => simp [h, hd]

theorem maximalRuns_dropWhile (s : CStr) :
    maximalRuns (s.dropWhile isDelim) = maximalRuns s := by
  induction s with
  | nil => rfl
  | cons x xs ih =>
    by_cases hx : isDelim x = true
    · rw [List.dropWhile_cons_of_pos hx, ih, maximalRuns_cons_delim xs hx]
    · rw [List.dropWhile_cons_of_neg hx]

theorem head_dropWhile_isDelim {s cs : CStr} {c : Char}
    (h : s.dropWhile isDelim = c :: cs) : isDelim c = false := by
  induction s with
  | nil => simp at h
  | cons x xs ih =>
    by_cases hx : isDelim x = true
    · rw [List.dropWhile_cons_of_pos hx] at h
      exact ih h
    · rw [List.dropWhile_cons_of_neg hx] at h
      cases h
      simpa using hx

theorem strtok_none {s : CStr} (h : strtok s = none) : maximalRuns s = [] := by
  unfold strtok at h
  cases hd : s.dropWhile isDelim with
  | nil => rw [← maximalRuns_dropWhile, hd, maximalRuns_nil]
  | cons c cs => simp [hd] at h

theorem strtok_some {s tok rest : CStr} (h : strtok s = some (tok, rest)) :
    maximalRuns s = tok :: maximalRuns rest ∧ rest.length < s.length := by
  unfold strtok at h
  cases hd : s.dropWhile isDelim with
  | nil => simp [hd] at h
  | cons c cs =>
    simp only [hd, Option.some.injEq, Prod.mk.injEq] at h
    obtain ⟨h1, h2⟩ := h
    constructor
    · rw [← maximalRuns_dropWhile, hd, maximalRuns_cons_run cs (head_dropWhile_isDelim hd),
        h1, h2]
    · have hlen : (c :: cs).length ≤ s.length := by
        rw [← hd]
        exact (List.dropWhile_sublist _).length_le
      have h3 : rest.length ≤ cs.length := by
        rw [← h2, List.length_drop]
        exact le_trans (Nat.sub_le _ _) (List.dropWhile_sublist _).length_le
      simp only [List.length_cons] at hlen
      omega

/-! ## Facts about the token block -/

theorem advance_pending (s : SplitState) (b p : Int) (t : List Cell) :
    (s.advance b p t).pending = maximalRuns s.saved := by
  unfold SplitState.advance SplitState.pending
  cases h : strtok s.saved with
  | none => simp [strtok_none h]
  | some pr =>
    obtain ⟨tok, rest⟩ := pr
    simp [(strtok_some h).1]

theorem advance_steps (s : SplitState) (b p : Int) (t : List Cell) :
    (s.advance b p t).steps ≤ s.saved.length + 1 := by
  unfold SplitState.advance SplitState.steps
  cases h : strtok s.saved with
  | none => simp
  | some pr =>
    obtain ⟨tok, rest⟩ := pr
    have := (strtok_some h).2
    simp only
    omega

theorem advance_fields (s : SplitState) (b p : Int) (t : List Cell) :
    (s.advance b p t).bufsize = b ∧ (s.advance b p t).position = p ∧
      (s.advance b p t).tokens = t := by
  unfold SplitState.advance
  cases strtok s.saved with
  | none => simp
  | some pr => simp

theorem advance_inv (intMax : Int) (s : SplitState) (b p : Int) (t : List Cell)
    (acc : List CStr) (hp : p = acc.length)
    (ht : t = acc.map Cell.ptr ++ List.replicate (b.toNat - acc.length) Cell.uninit)
    (hb : b = bufsizeFor acc.length) (hm : b ≤ intMax) :
    SplitInv intMax (s.advance b p t) acc := by
  obtain ⟨h1, h2, h3⟩ := advance_fields s b p t
  unfold SplitInv
  rw [h1, h2, h3]
  exact ⟨hp, ht, hb, hm⟩

theorem bufsizeFor_bounds (n : Nat) :
    n < bufsizeFor n ∧ bufsizeFor n ≤ n + LSH_TOK_BUFSIZE ∧
      bufsizeFor n = LSH_TOK_BUFSIZE * (n / LSH_TOK_BUFSIZE + 1) := by
  unfold bufsizeFor LSH_TOK_BUFSIZE
  omega

theorem bufsizeFor_succ (n : Nat) :
    bufsizeFor (n + 1) =
      if n + 1 ≥ bufsizeFor n then bufsizeFor n + LSH_TOK_BUFSIZE else bufsizeFor n := by
  unfold bufsizeFor LSH_TOK_BUFSIZE
  split <;> omega

theorem bufsizeFor_mono {m n : Nat} (h : m ≤ n) : bufsizeFor m ≤ bufsizeFor n := by
  unfold bufsizeFor LSH_TOK_BUFSIZE
  omega

theorem int_val_ok {intMax v : Int} (h0 : 0 ≤ v) (h : v ≤ intMax) :
    int_val intMax v = .ok v := by
  unfold int_val
  rw [if_pos ⟨by omega, h⟩]

theorem int_val_overflow {intMax v : Int} (h : intMax < v) :
    int_val intMax v = .error .overflow := by
  unfold int_val
  rw [if_neg (by omega)]

theorem splitInv_bounds {intMax : Int} {s : SplitState} {acc : List CStr}
    (h : SplitInv intMax s acc) :
    0 ≤ s.position ∧ s.position < s.bufsize ∧ (s.tokens.length : Int) = s.bufsize ∧
      s.bufsize = (LSH_TOK_BUFSIZE : Int) * (s.position / (LSH_TOK_BUFSIZE : Int) + 1) ∧
      s.bufsize ≤ intMax := by
  obtain ⟨h1, h2, h3, h4⟩ := h
  obtain ⟨hb1, _, hb3⟩ := bufsizeFor_bounds acc.length
  refine ⟨by omega, by omega, ?_, ?_, h4⟩
  · rw [h2]
    simp only [List.length_append, List.length_map, List.length_replicate]
    omega
  · rw [h3, h1, hb3]
    unfold LSH_TOK_BUFSIZE
    omega

theorem store_inv {intMax : Int} {s : SplitState} {acc : List CStr}
    (h : SplitInv intMax s acc) (v : Cell) :
    store s.tokens s.position v =
      .ok (acc.map Cell.ptr ++
        v :: List.replicate (bufsizeFor acc.length - acc.length - 1) Cell.uninit) ∧
    store s.tokens s.position v = .ok (s.tokens.set s.position.toNat v) := by
  obtain ⟨hb0, hb1, hb2, _, _⟩ := splitInv_bounds h
  obtain ⟨h1, h2, h3, _⟩ := h
  obtain ⟨hlt, _, _⟩ := bufsizeFor_bounds acc.length
  have hstore : store s.tokens s.position v = .ok (s.tokens.set s.position.toNat v) := by
    unfold store
    rw [if_pos ⟨hb0, by omega⟩]
  refine ⟨?_, hstore⟩
  rw [hstore, h2]
  have hpos : s.position.toNat = acc.length := by omega
  have hbuf : s.bufsize.toNat = bufsizeFor acc.length := by omega
  have hrep : List.replicate (bufsizeFor acc.length - acc.length) Cell.uninit =
      Cell.uninit :: List.replicate (bufsizeFor acc.length - acc.length - 1) Cell.uninit := by
    rw [← List.replicate_succ]
    congr 1
    omega
  rw [hpos, hbuf, hrep, List.set_append_right _ _ (by simp)]
  simp

theorem block_stored (acc : List CStr) (tok : CStr) (n : Nat) :
    acc.map Cell.ptr ++ Cell.ptr tok :: List.replicate (n - acc.length - 1) Cell.uninit =
      (acc ++ [tok]).map Cell.ptr ++
        List.replicate (n - (acc ++ [tok]).length) Cell.uninit := by
  rw [List.map_append, List.append_assoc, List.length_append, List.length_singleton]
  rfl

/-- The block after the store of one more token, grown to `b` entries. -/
theorem block_after_store (acc : List CStr) (tok : CStr) (b : Nat)
    (hb : bufsizeFor acc.length ≤ b) :
    realloc (acc.map Cell.ptr ++
        Cell.ptr tok :: List.replicate (bufsizeFor acc.length - acc.length - 1) Cell.uninit) b =
      (acc ++ [tok]).map Cell.ptr ++
        List.replicate (b - (acc ++ [tok]).length) Cell.uninit := by
  obtain ⟨hlt, _, _⟩ := bufsizeFor_bounds acc.length
  have hlen : (acc.map Cell.ptr ++ Cell.ptr tok ::
      List.replicate (bufsizeFor acc.length - acc.length - 1) Cell.uninit).length =
      bufsizeFor acc.length := by
    simp only [List.length_append, List.length_map, List.length_cons, List.length_replicate]
    omega
  unfold realloc
  rw [List.take_of_length_le (by rw [hlen]; exact hb), hlen, block_stored,
    List.append_assoc, ← List.replicate_add]
  congr 2
  simp only [List.length_append, List.length_singleton]
  omega

/-- What one pass through the loop body does when the invariant holds. -/
theorem split_body_eq (allocOk : Nat → Bool) {intMax : Int} (tok : CStr) {s : SplitState}
    {acc : List CStr} (h : SplitInv intMax s acc) :
    split_body allocOk intMax tok s =
      if acc.length + 1 ≥ bufsizeFor acc.length then
        if ((bufsizeFor acc.length + LSH_TOK_BUFSIZE : Nat) : Int) ≤ intMax then
          if allocOk (bufsizeFor acc.length + LSH_TOK_BUFSIZE) then
            .ok (s.advance ((bufsizeFor acc.length + LSH_TOK_BUFSIZE : Nat) : Int)
              ((acc.length + 1 : Nat) : Int)
              ((acc ++ [tok]).map Cell.ptr ++
                List.replicate (bufsizeFor acc.length + LSH_TOK_BUFSIZE - (acc ++ [tok]).length)
                  Cell.uninit))
          else .error .alloc
        else .error .overflow
      else
        .ok (s.advance (bufsizeFor acc.length : Nat) ((acc.length + 1 : Nat) : Int)
          ((acc ++ [tok]).map Cell.ptr ++
            List.replicate (bufsizeFor acc.length - (acc ++ [tok]).length) Cell.uninit)) := by
  obtain ⟨hb0, hb1, _, _, hmax⟩ := splitInv_bounds h
  have hst := (store_inv h (.ptr tok)).1
  obtain ⟨h1, _, h3, _⟩ := h
  have hadd : int_add intMax s.position 1 = .ok (s.position + 1) := by
    unfold int_add
    exact int_val_ok (by omega) (by omega)
  unfold split_body
  rw [hst, hadd]
  simp only
  have hpos : s.position + 1 = ((acc.length + 1 : Nat) : Int) := by
    rw [h1]
    push_cast
    rfl
  by_cases hfull : acc.length + 1 ≥ bufsizeFor acc.length
  · rw [if_pos (by omega), if_pos hfull]
    by_cases hfit : ((bufsizeFor acc.length + LSH_TOK_BUFSIZE : Nat) : Int) ≤ intMax
    · have hgrow : int_add intMax s.bufsize LSH_TOK_BUFSIZE =
          .ok ((bufsizeFor acc.length + LSH_TOK_BUFSIZE : Nat) : Int) := by
        unfold int_add
        rw [int_val_ok (by omega) (by rw [h3]; push_cast at hfit ⊢; exact hfit), h3]
        push_cast
        rfl
      rw [hgrow, if_pos hfit]
      simp only [Int.toNat_ofNat]
      rw [block_after_store acc tok _ (by omega), hpos]
    · have hgrow : int_add intMax s.bufsize LSH_TOK_BUFSIZE = .error .overflow := by
        unfold int_add
        exact int_val_overflow (by rw [h3]; push_cast at hfit ⊢; omega)
      rw [hgrow, if_neg hfit]
  · rw [if_neg (by omega), if_neg hfull, hpos, h3, block_stored]

theorem split_body_inv {allocOk : Nat → Bool} {intMax : Int} {tok : CStr}
    {s s' : SplitState} {acc : List CStr} (h : SplitInv intMax s acc)
    (hb : split_body allocOk intMax tok s = .ok s') :
    SplitInv intMax s' (acc ++ [tok]) ∧ s'.pending = maximalRuns s.saved ∧
      s'.steps ≤ s.saved.length + 1 := by
  have hmax' : ((bufsizeFor acc.length : Nat) : Int) ≤ intMax := by
    rw [← h.2.2.1]
    exact h.2.2.2
  rw [split_body_eq allocOk tok h] at hb
  have hsucc := bufsizeFor_succ acc.length
  split at hb
  · rename_i hfull
    rw [if_pos hfull] at hsucc
    split at hb
    · rename_i hfit
      split at hb
      · cases hb
        exact ⟨advance_inv _ _ _ _ _ _ (by simp) (by rw [Int.toNat_ofNat]) (by simp [hsucc])
          hfit, advance_pending _ _ _ _, advance_steps _ _ _ _⟩
      · cases hb
    · cases hb
  · rename_i hfull
    rw [if_neg hfull] at hsucc
    cases hb
    exact ⟨advance_inv _ _ _ _ _ _ (by simp) (by rw [Int.toNat_ofNat]) (by simp [hsucc]) hmax',
      advance_pending _ _ _ _, advance_steps _ _ _ _⟩

theorem split_body_ok {allocOk : Nat → Bool} (hall : ∀ n, allocOk n = true) {intMax : Int}
    (tok : CStr) {s : SplitState} {acc : List CStr} (h : SplitInv intMax s acc)
    (hfit : ((bufsizeFor (acc.length + 1) : Nat) : Int) ≤ intMax) :
    ∃ s', split_body allocOk intMax tok s = .ok s' := by
  rw [split_body_eq allocOk tok h]
  have hsucc := bufsizeFor_succ acc.length
  split
  · rename_i hfull
    rw [if_pos hfull] at hsucc
    rw [if_pos (by rw [← hsucc]; exact hfit), hall]
    exact ⟨_, rfl⟩
  · exact ⟨_, rfl⟩

theorem split_body_overflow (allocOk : Nat → Bool) {intMax : Int}
    (tok : CStr) {s : SplitState} {acc : List CStr} (h : SplitInv intMax s acc)
    (hbig : intMax < ((bufsizeFor (acc.length + 1) : Nat) : Int)) :
    split_body allocOk intMax tok s = .error .overflow := by
  have hmax : ((bufsizeFor acc.length : Nat) : Int) ≤ intMax := by
    rw [← h.2.2.1]
    exact h.2.2.2
  rw [split_body_eq allocOk tok h]
  have hsucc := bufsizeFor_succ acc.length
  split
  · rename_i hfull
    rw [if_pos hfull] at hsucc
    rw [if_neg (by rw [← hsucc]; omega)]
  · rename_i hfull
    rw [if_neg hfull] at hsucc
    omega

theorem split_body_cases (allocOk : Nat → Bool) {intMax : Int} (tok : CStr)
    {s : SplitState} {acc : List CStr} (h : SplitInv intMax s acc) :
    (∃ s', split_body allocOk intMax tok s = .ok s') ∨
      split_body allocOk intMax tok s = .error .alloc ∨
      split_body allocOk intMax tok s = .error .overflow := by
  rw [split_body_eq allocOk tok h]
  split
  · split
    · split
      · exact Or.inl ⟨_, rfl⟩
      · exact Or.inr (Or.inl rfl)
    · exact Or.inr (Or.inr rfl)
  · exact Or.inl ⟨_, rfl⟩

theorem split_init_inv {allocOk : Nat → Bool} {intMax : Int} {line : CStr} {s : SplitState}
    (h : split_init allocOk intMax line = .ok s) :
    SplitInv intMax s [] ∧ s.pending = maximalRuns line ∧ s.steps ≤ line.length + 1 := by
  unfold split_init at h
  by_cases hfit : (LSH_TOK_BUFSIZE : Int) ≤ intMax
  · rw [int_val_ok (by unfold LSH_TOK_BUFSIZE; omega) hfit] at h
    simp only at h
    split at h
    · cases h
      exact ⟨advance_inv _ _ _ _ _ _ rfl rfl rfl hfit, advance_pending _ _ _ _,
        advance_steps _ _ _ _⟩
    · cases h
  · rw [int_val_overflow (by omega)] at h
    cases h

theorem split_init_ok {allocOk : Nat → Bool} (hall : ∀ n, allocOk n = true) {intMax : Int}
    (line : CStr) (hfit : (LSH_TOK_BUFSIZE : Int) ≤ intMax) :
    ∃ s, split_init allocOk intMax line = .ok s := by
  unfold split_init
  rw [int_val_ok (by unfold LSH_TOK_BUFSIZE; omega) hfit]
  simp only [hall, if_true]
  exact ⟨_, rfl⟩

theorem split_loop_ok {allocOk : Nat → Bool} (hall : ∀ n, allocOk n = true) {intMax : Int} :
    ∀ (n : Nat) (s : SplitState) (acc : List CStr), SplitInv intMax s acc → s.steps ≤ n →
      ((bufsizeFor (acc ++ s.pending).length : Nat) : Int) ≤ intMax →
      split_loop allocOk intMax n s = .ok (tokenBlock (acc ++ s.pending)) := by
  intro n
  induction n with
  | zero =>
    intro s acc _ hsteps
    unfold SplitState.steps at hsteps
    split at hsteps <;> omega
  | succ n ih =>
    intro s acc hinv hsteps hfit
    unfold split_loop
    cases htok : s.token with
    | none =>
      simp only [SplitState.pending, htok, List.append_nil]
      rw [(store_inv hinv _).1]
      rfl
    | some tok =>
      have hpend : s.pending = tok :: maximalRuns s.saved := by
        simp [SplitState.pending, htok]
      rw [hpend] at hfit
      have hfit1 : ((bufsizeFor (acc.length + 1) : Nat) : Int) ≤ intMax := by
        have := bufsizeFor_mono (m := acc.length + 1)
          (n := (acc ++ tok :: maximalRuns s.saved).length) (by simp)
        omega
      obtain ⟨s', hs'⟩ := split_body_ok hall tok hinv hfit1
      obtain ⟨hinv', hpend', hst⟩ := split_body_inv hinv hs'
      simp only [hs']
      have hn : s'.steps ≤ n := by
        simp only [SplitState.steps, htok] at hsteps
        omega
      rw [ih s' (acc ++ [tok]) hinv' hn (by rw [hpend']; simpa using hfit), hpend', hpend]
      simp

theorem split_loop_overflow {allocOk : Nat → Bool} (hall : ∀ n, allocOk n = true)
    {intMax : Int} :
    ∀ (n : Nat) (s : SplitState) (acc : List CStr), SplitInv intMax s acc → s.steps ≤ n →
      intMax < ((bufsizeFor (acc ++ s.pending).length : Nat) : Int) →
      split_loop allocOk intMax n s = .error .overflow := by
  intro n
  induction n with
  | zero =>
    intro s acc _ hsteps
    unfold SplitState.steps at hsteps
    split at hsteps <;> omega
  | succ n ih =>
    intro s acc hinv hsteps hbig
    unfold split_loop
    cases htok : s.token with
    | none =>
      simp only [SplitState.pending, htok, List.append_nil] at hbig
      have h3 := hinv.2.2.1
      have h4 := hinv.2.2.2
      omega
    | some tok =>
      have hpend : s.pending = tok :: maximalRuns s.saved := by
        simp [SplitState.pending, htok]
      by_cases hfit1 : ((bufsizeFor (acc.length + 1) : Nat) : Int) ≤ intMax
      · obtain ⟨s', hs'⟩ := split_body_ok hall tok hinv hfit1
        obtain ⟨hinv', hpend', hst⟩ := split_body_inv hinv hs'
        simp only [hs']
        have hn : s'.steps ≤ n := by
          simp only [SplitState.steps, htok] at hsteps
          omega
        refine ih s' (acc ++ [tok]) hinv' hn ?_
        rw [hpend']
        rw [hpend] at hbig
        simpa using hbig
      · simp only [split_body_overflow allocOk tok hinv (by omega)]

theorem split_loop_cases (allocOk : Nat → Bool) {intMax : Int} :
    ∀ (n : Nat) (s : SplitState) (acc : List CStr), SplitInv intMax s acc → s.steps ≤ n →
      (∃ block, split_loop allocOk intMax n s = .ok block) ∨
        split_loop allocOk intMax n s = .error .alloc ∨
        split_loop allocOk intMax n s = .error .overflow := by
  intro n
  induction n with
  | zero =>
    intro s acc _ hsteps
    unfold SplitState.steps at hsteps
    split at hsteps <;> omega
  | succ n ih =>
    intro s acc hinv hsteps
    unfold split_loop
    cases htok : s.token with
    | none =>
      simp only
      rw [(store_inv hinv _).1]
      exact Or.inl ⟨_, rfl⟩
    | some tok =>
      rcases split_body_cases allocOk tok hinv with ⟨s', hs'⟩ | herr | herr
      · obtain ⟨hinv', _, hst⟩ := split_body_inv hinv hs'
        simp only [hs']
        refine ih s' (acc ++ [tok]) hinv' ?_
        simp only [SplitState.steps, htok] at hsteps
        omega
      · simp [herr]
      · simp [herr]

theorem argv_ptrs (ts : List CStr) (rest : List Cell) :
    argv (ts.map Cell.ptr ++ Cell.null :: rest) = ts := by
  induction ts with
  | nil => rfl
  | cons u us ih =>
    show argv (Cell.ptr u :: (List.map Cell.ptr us ++ Cell.null :: rest)) = u :: us
    rw [argv, ih]

theorem argv_tokenBlock (toks : List CStr) : argv (tokenBlock toks) = toks :=
  argv_ptrs toks _

theorem tokenBlock_length (toks : List CStr) :
    (tokenBlock toks).length = bufsizeFor toks.length := by
  obtain ⟨hlt, _, _⟩ := bufsizeFor_bounds toks.length
  unfold tokenBlock
  simp only [List.length_append, List.length_map, List.length_cons, List.length_replicate]
  omega

/-- When every allocation is granted and the final `bufsize` is an `int`,
`lsh_split_line` returns the block that holds the maximal runs of the line
followed by the terminator. -/
theorem lsh_split_line_mem_ok {allocOk : Nat → Bool} (hall : ∀ n, allocOk n = true)
    {intMax : Int} (line : CStr)
    (hfit : ((bufsizeFor (maximalRuns line).length : Nat) : Int) ≤ intMax) :
    lsh_split_line_mem allocOk intMax line = .ok (tokenBlock (maximalRuns line)) := by
  unfold lsh_split_line_mem
  have h64 : (LSH_TOK_BUFSIZE : Int) ≤ intMax := by
    have := (bufsizeFor_bounds (maximalRuns line).length).2.2
    unfold LSH_TOK_BUFSIZE at this ⊢
    omega
  obtain ⟨s, hinit⟩ := split_init_ok hall line h64
  obtain ⟨hinv, hpend, hst⟩ := split_init_inv hinit
  rw [hinit]
  simp only
  rw [split_loop_ok hall _ s [] hinv hst (by rw [hpend]; simpa using hfit), hpend,
    List.nil_append]

/-- When every allocation is granted and the final `bufsize` would not be an
`int`, the sum `bufsize + LSH_TOK_BUFSIZE` overflows before the last token is
handled. -/
theorem lsh_split_line_mem_overflow {allocOk : Nat → Bool} (hall : ∀ n, allocOk n = true)
    {intMax : Int} (line : CStr)
    (hbig : intMax < ((bufsizeFor (maximalRuns line).length : Nat) : Int)) :
    lsh_split_line_mem allocOk intMax line = .error .overflow := by
  unfold lsh_split_line_mem
  by_cases h64 : (LSH_TOK_BUFSIZE : Int) ≤ intMax
  · obtain ⟨s, hinit⟩ := split_init_ok hall line h64
    obtain ⟨hinv, hpend, hst⟩ := split_init_inv hinit
    rw [hinit]
    simp only
    exact split_loop_overflow hall _ s [] hinv hst (by rw [hpend]; simpa using hbig)
  · unfold split_init
    rw [int_val_overflow (by omega)]

/-- On a line that an `int` of 32 bits can count, `lsh_split_line` is the run
of the function with `INT_MAX` as it is. -/
theorem lsh_split_line_int_max (line : CStr)
    (h : (line.length : Int) + (LSH_TOK_BUFSIZE : Int) ≤ INT_MAX) :
    lsh_split_line line =
      match lsh_split_line_mem (fun _ => true) INT_MAX line with
      | .ok block => some (argv block)
      | .error _ => none := by
  unfold lsh_split_line
  rw [max_eq_left h]

/-! ## Facts about maximal runs -/

theorem wait_loop_ret (pid : Int) (pre : List WaitStatus) (r : WaitStatus)
    (post : List WaitStatus) (hpre : ∀ st ∈ pre, WIFEXITED st = false ∧ WIFSIGNALED st = false)
    (hr : WIFEXITED r = true ∨ WIFSIGNALED r = true) (w : World) :
    wait_loop pid (pre ++ r :: post) w =
      .ret () { w with trace := w.trace ++ (pre ++ [r]).map (Event.waitpid pid) } := by
  induction pre generalizing w with
  | nil =>
    have : (!WIFEXITED r && !WIFSIGNALED r) = false := by
      rcases hr with h | h <;> simp [h]
    simp [wait_loop, this, World.log]
  | cons st pre ih =>
    obtain ⟨h1, h2⟩ := hpre st (List.mem_cons_self _ _)
    rw [List.cons_append, wait_loop]
    simp only [h1, h2, Bool.not_false, Bool.and_self, if_true]
    rw [ih (fun s hs => hpre s (List.mem_cons_of_mem _ hs))]
    simp [World.log]

theorem wait_loop_hang (pid : Int) (reports : List WaitStatus)
    (h : ∀ st ∈ reports, WIFEXITED st = false ∧ WIFSIGNALED st = false) (w : World) :
    wait_loop pid reports w =
      .hang { w with trace := w.trace ++ reports.map (Event.waitpid pid) } := by
  induction reports generalizing w with
  | nil => simp [wait_loop]
  | cons st rest ih =>
    obtain ⟨h1, h2⟩ := h st (List.mem_cons_self _ _)
    rw [wait_loop]
    simp only [h1, h2, Bool.not_false, Bool.and_self, if_true]
    rw [ih (fun s hs => h s (List.mem_cons_of_mem _ hs))]
    simp [World.log]

theorem wait_loop_cases (pid : Int) (reports : List WaitStatus) (w : World) :
    (∃ w', wait_loop pid reports w = .ret () w') ∨ (∃ w', wait_loop pid reports w = .hang w') := by
  induction reports generalizing w with
  | nil => exact Or.inr ⟨w, rfl⟩
  | cons st rest ih =>
    unfold wait_loop
    simp only
    split
    · exact ih _
    · exact Or.inl ⟨_, rfl⟩

theorem wait_loop_done (pid : Int) (reports : List WaitStatus) (w : World)
    (h : ∃ st ∈ reports, (WIFEXITED st || WIFSIGNALED st) = true) :
    ∃ w', wait_loop pid reports w = .ret () w' := by
  induction reports generalizing w with
  | nil => simp at h
  | cons st rest ih =>
    unfold wait_loop
    simp only
    split
    · rename_i hst
      apply ih
      obtain ⟨s, hs, hterm⟩ := h
      rcases List.mem_cons.mp hs with rfl | hs'
      · simp only [Bool.and_eq_true, Bool.not_eq_true'] at hst
        simp [hst.1, hst.2] at hterm
      · exact ⟨s, hs', hterm⟩
    · exact ⟨_, rfl⟩

theorem lsh_launch_pid_parent (os : OS) (pid : Int) (hpid : 0 < pid) (args : List CStr)
    (w : World) :
    lsh_launch_pid os pid args w =
      (wait_loop pid (os.waitpid w pid) w).bind fun _ w1 => .ret 1 w1 := by
  unfold lsh_launch_pid
  have h0 : (pid == 0) = false := by
    simp only [beq_eq_false_iff_ne, ne_eq]
    omega
  simp only [h0, Bool.false_eq_true, if_false]
  rw [if_neg (by omega)]

theorem lsh_launch_cases (os : OS) (args : List CStr) (w : World) :
    (∃ w', lsh_launch os args w = .ret 1 w') ∨ (∃ w', lsh_launch os args w = .hang w') := by
  unfold lsh_launch
  cases os.fork w with
  | error e => exact Or.inl ⟨_, rfl⟩
  | ok n =>
    simp only
    rw [lsh_launch_pid_parent os _ (by omega)]
    rcases wait_loop_cases (↑n + 1) (os.waitpid _ (↑n + 1)) _ with ⟨w', hw⟩ | ⟨w', hw⟩
    · exact Or.inl ⟨w', by rw [hw]; rfl⟩
    · exact Or.inr ⟨w', by rw [hw]; rfl⟩

theorem lsh_launch_done (os : OS) (args : List CStr) (w : World)
    (hwait : ∀ w1 pid, ∃ st ∈ os.waitpid w1 pid, (WIFEXITED st || WIFSIGNALED st) = true) :
    ∃ w', lsh_launch os args w = .ret 1 w' := by
  unfold lsh_launch
  cases os.fork w with
  | error e => exact ⟨_, rfl⟩
  | ok n =>
    simp only
    rw [lsh_launch_pid_parent os _ (by omega)]
    obtain ⟨w', hw⟩ := wait_loop_done (↑n + 1) (os.waitpid _ (↑n + 1)) _ (hwait _ _)
    exact ⟨w', by rw [hw]; rfl⟩

theorem lsh_cd_ret (os : OS) (args : List CStr) (w : World) :
    ∃ w', lsh_cd os args w = .ret 1 w' := by
  unfold lsh_cd
  cases args.get? 1 with
  | none => exact ⟨_, rfl⟩
  | some dir =>
    simp only
    split <;> exact ⟨_, rfl⟩

theorem lsh_cd_ok (os : OS) (cmd dir : CStr) (rest : List CStr) (w : World)
    (hok : os.chdir w dir = .ok ()) :
    lsh_cd os (cmd :: dir :: rest) w =
      .ret 1 { w with cwd := dir, trace := w.trace ++ [Event.chdir dir true] } := by
  simp [lsh_cd, chdir, hok, World.log]

theorem lsh_cd_error (os : OS) (cmd dir : CStr) (rest : List CStr) (w : World) {e : CStr}
    (herr : os.chdir w dir = .error e) :
    lsh_cd os (cmd :: dir :: rest) w =
      .ret 1 { w with errno := e, trace := w.trace ++ [Event.chdir dir false],
                      stderr := w.stderr ++ "lsh: ".toList ++ e ++ "\n".toList } := by
  simp [lsh_cd, chdir, herr, World.log, perror]

theorem lsh_execute_nil (os : OS) (w : World) : lsh_execute os [] w = .ret 1 w := rfl

/-- The comparisons `lsh_execute` makes on a non-empty sequence, in order. -/
theorem lsh_execute_cons (os : OS) (cmd : CStr) (rest : List CStr) (w : World) :
    lsh_execute os (cmd :: rest) w =
      if cmd = "cd".toList then lsh_cd os (cmd :: rest) w
      else if cmd = "help".toList then lsh_help os (cmd :: rest) w
      else if cmd = "exit".toList then lsh_exit os (cmd :: rest) w
      else lsh_launch os (cmd :: rest) w := rfl

theorem res_bind_ret_world {α β : Type} (r : Res α) (v : β) :
    (r.bind fun _ w1 => Res.ret v w1).world = r.world := by
  cases r <;> rfl

theorem wait_loop_world (pid : Int) (reports : List WaitStatus) (w : World) :
    ∃ waits rest, reports = waits ++ rest ∧
      (wait_loop pid reports w).world =
        { w with trace := w.trace ++ waits.map (Event.waitpid pid) } := by
  induction reports generalizing w with
  | nil => exact ⟨[], [], rfl, by simp [wait_loop, Res.world]⟩
  | cons st more ih =>
    by_cases hst : (!WIFEXITED st && !WIFSIGNALED st) = true
    · obtain ⟨waits, rest, hsplit, hw⟩ := ih (w.log (Event.waitpid pid st))
      refine ⟨st :: waits, rest, by rw [hsplit]; rfl, ?_⟩
      rw [wait_loop]
      simp only [hst, if_true]
      rw [hw]
      simp [World.log]
    · refine ⟨[st], more, rfl, ?_⟩
      rw [wait_loop]
      simp only [hst, if_false]
      simp [Res.world, World.log]

theorem lsh_launch_child_world (os : OS) (args : List CStr) (w : World) :
    ∃ ok, (lsh_launch_pid os 0 args w).world.trace =
        w.trace ++ [Event.execvp args.head? args w.cwd ok] ∧
      (lsh_launch_pid os 0 args w).world.stdout = w.stdout := by
  unfold lsh_launch_pid
  rw [if_pos (by rfl)]
  cases os.execvp w args.head? args with
  | ok u => exact ⟨true, rfl, rfl⟩
  | error e => exact ⟨false, rfl, rfl⟩

theorem lsh_launch_fork_error (os : OS) (args : List CStr) (w : World) {e : CStr}
    (h : os.fork w = .error e) :
    lsh_launch os args w = .ret 1 (perror "lsh" { w.log (.fork (-1)) with errno := e }) := by
  unfold lsh_launch
  rw [h]
  rfl

theorem lsh_launch_fork_ok (os : OS) (args : List CStr) (w : World) {n : Nat}
    (h : os.fork w = .ok n) :
    ∃ (ok : Bool) (waits : List WaitStatus), (lsh_launch os args w).world.trace =
        w.trace ++ [Event.fork (n + 1), Event.execvp args.head? args w.cwd ok] ++
          waits.map (Event.waitpid (n + 1)) ∧
      (lsh_launch os args w).world.cwd = w.cwd ∧
      (lsh_launch os args w).world.stdout = w.stdout := by
  unfold lsh_launch
  rw [h]
  simp only
  rw [lsh_launch_pid_parent os _ (by omega), res_bind_ret_world]
  obtain ⟨ok, hok, hout⟩ := lsh_launch_child_world os args (w.log (Event.fork (↑n + 1)))
  obtain ⟨waits, rest, _, hw⟩ := wait_loop_world (↑n + 1)
    (os.waitpid { (lsh_launch_pid os 0 args (w.log (Event.fork (↑n + 1)))).world with
      cwd := (w.log (Event.fork (↑n + 1))).cwd,
      errno := (w.log (Event.fork (↑n + 1))).errno } (↑n + 1))
    { (lsh_launch_pid os 0 args (w.log (Event.fork (↑n + 1)))).world with
      cwd := (w.log (Event.fork (↑n + 1))).cwd,
      errno := (w.log (Event.fork (↑n + 1))).errno }
  refine ⟨ok, waits, ?_, ?_, ?_⟩
  · rw [hw]
    simp only [hok]
    simp [World.log]
  · rw [hw]
    rfl
  · rw [hw]
    exact hout

theorem lsh_execute_head_exit (os : OS) (args : List CStr) (w : World)
    (hexit : args.head? = some "exit".toList) : lsh_execute os args w = .ret 0 w := by
  cases args with
  | nil => simp at hexit
  | cons cmd rest =>
    simp only [List.head?_cons, Option.some.injEq] at hexit
    subst hexit
    rfl

theorem lsh_execute_head_other (os : OS) (args : List CStr) (w : World)
    (hne : args.head? ≠ some "exit".toList) :
    ((∃ w', lsh_execute os args w = .ret 1 w') ∨ (∃ w', lsh_execute os args w = .hang w')) ∧
    ((∀ w1 pid, ∃ st ∈ os.waitpid w1 pid, (WIFEXITED st || WIFSIGNALED st) = true) →
      ∃ w', lsh_execute os args w = .ret 1 w') := by
  cases args with
  | nil => exact ⟨Or.inl ⟨w, rfl⟩, fun _ => ⟨w, rfl⟩⟩
  | cons cmd rest =>
    rw [lsh_execute_cons]
    split
    · exact ⟨Or.inl (lsh_cd_ret os _ w), fun _ => lsh_cd_ret os _ w⟩
    · split
      · exact ⟨Or.inl ⟨_, rfl⟩, fun _ => ⟨_, rfl⟩⟩
      · split
        · rename_i h
          exact absurd (by rw [h]; rfl) hne
        · exact ⟨lsh_launch_cases os _ w, lsh_launch_done os _ w⟩

/-! ## Builtins and dispatch: claims -/

/-- C4. When the first token is not `exit` (or there is no token),
`lsh_execute` never returns the terminate signal and never ends or replaces
the shell process: it returns 1 or blocks in the wait loop, and it returns 1
whenever every wait is answered by a final status.  The same holds for
`lsh_launch` on every argument vector, which returns 1 at once when `fork`
fails. -/
theorem lsh_execute_continue (os : OS) (args : List CStr) (w : World)
    (hne : args.head? ≠ some "exit".toList) :
    ((∃ w', lsh_execute os args w = .ret 1 w') ∨ (∃ w', lsh_execute os args w = .hang w')) ∧
    ((∀ w1 pid, ∃ st ∈ os.waitpid w1 pid, (WIFEXITED st || WIFSIGNALED st) = true) →
      ∃ w', lsh_execute os args w = .ret 1 w') ∧
    (∀ args' : List CStr,
      ((∃ w', lsh_launch os args' w = .ret 1 w') ∨ (∃ w', lsh_launch os args' w = .hang w')) ∧
      ((∀ w1 pid, ∃ st ∈ os.waitpid w1 pid, (WIFEXITED st || WIFSIGNALED st) = true) →
        ∃ w', lsh_launch os args' w = .ret 1 w') ∧
      (∀ e, os.fork w = .error e → ∃ w', lsh_launch os args' w = .ret 1 w')) := by
  exact ⟨(lsh_execute_head_other os args w hne).1, (lsh_execute_head_other os args w hne).2,
    fun args' => ⟨lsh_launch_cases os args' w, lsh_launch_done os args' w,
      fun e he => ⟨_, lsh_launch_fork_error os args' w he⟩⟩⟩

/-- C4 at `ls -l` where children end, at `frobnicate` where `fork` fails, and
for `cd` with a directory that cannot be entered. -/
theorem lsh_execute_continue_witness :
    (∃ w', lsh_execute os0 ["ls".toList, "-l".toList] world0 = .ret 1 w') ∧
    (∃ w', lsh_launch os1 ["frobnicate".toList] world0 = .ret 1 w') ∧
    ((∃ w', lsh_execute os1 ["cd".toList, "/root".toList] world0 = .ret 1 w') ∨
      (∃ w', lsh_execute os1 ["cd".toList, "/root".toList] world0 = .hang w')) :=
  ⟨(lsh_execute_continue os0 ["ls".toList, "-l".toList] world0 (by decide)).2.1
      (fun _ _ => ⟨.exited 0, by simp [os0], rfl⟩),
   ((lsh_execute_continue os1 [] world0 (by decide)).2.2 ["frobnicate".toList]).2.2
      "Resource temporarily unavailable".toList rfl,
   (lsh_execute_continue os1 ["cd".toList, "/root".toList] world0 (by decide)).1⟩

/-- C5. For a token sequence that starts with `cd`: with no second token
`lsh_cd` writes the diagnostic to standard error and changes nothing else (no
`chdir` is attempted); with a second token it attempts `chdir` once, on that
token, and the tokens after it play no part; on success the working
directory is that token, on failure the error is reported on standard error
and the working directory stays; it always returns 1. -/
theorem lsh_cd_spec (os : OS) (args : List CStr) (w : World)
    (hcd : args.head? = some "cd".toList) :
    (args.get? 1 = none →
      lsh_cd os args w =
        .ret 1 { w with stderr := w.stderr ++ "lsh: expected argument to \"cd\"\n".toList }) ∧
    (∀ (dir : CStr) (rest : List CStr), args = "cd".toList :: dir :: rest →
      lsh_cd os args w = lsh_cd os ["cd".toList, dir] w ∧
      (os.chdir w dir = .ok () →
        lsh_cd os args w =
          .ret 1 { w with cwd := dir, trace := w.trace ++ [Event.chdir dir true] }) ∧
      (∀ e, os.chdir w dir = .error e →
        lsh_cd os args w =
          .ret 1 { w with errno := e, trace := w.trace ++ [Event.chdir dir false],
                          stderr := w.stderr ++ "lsh: ".toList ++ e ++ "\n".toList })) ∧
    (∃ w', lsh_cd os args w = .ret 1 w') := by
  refine ⟨?_, ?_, lsh_cd_ret os args w⟩
  · intro h
    unfold lsh_cd
    rw [h]
    rfl
  · intro dir rest hargs
    subst hargs
    refine ⟨rfl, ?_, ?_⟩
    · exact lsh_cd_ok os _ dir rest w
    · exact fun e herr => lsh_cd_error os _ dir rest w herr

/-- C5 at `cd`, `cd /tmp extra` and `cd /nowhere x y` in the sample world. -/
theorem lsh_cd_spec_witness :
    lsh_cd os0 ["cd".toList] world0 =
      .ret 1 { world0 with stderr := "lsh: expected argument to \"cd\"\n".toList } ∧
    lsh_cd os0 ["cd".toList, "/tmp".toList, "extra".toList] world0 =
      .ret 1 { world0 with cwd := "/tmp".toList,
                           trace := [Event.chdir "/tmp".toList true] } ∧
    lsh_cd os0 ["cd".toList, "/nowhere".toList, "x".toList, "y".toList] world0 =
      .ret 1 { world0 with errno := "No such file or directory".toList,
                           trace := [Event.chdir "/nowhere".toList false],
                           stderr := "lsh: No such file or directory\n".toList } :=
  ⟨(lsh_cd_spec os0 ["cd".toList] world0 rfl).1 rfl,
   ((lsh_cd_spec os0 ["cd".toList, "/tmp".toList, "extra".toList] world0 rfl).2.1
      "/tmp".toList ["extra".toList] rfl).2.1 rfl,
   ((lsh_cd_spec os0 ["cd".toList, "/nowhere".toList, "x".toList, "y".toList] world0 rfl).2.1
      "/nowhere".toList ["x".toList, "y".toList] rfl).2.2
      "No such file or directory".toList rfl⟩

/-- C6. `lsh_execute` looks at the first token only.  With no token it
returns 1 and leaves the world alone.  When the first token is `cd`, `help` or
`exit` it is the call of `lsh_cd`, `lsh_help` or `lsh_exit` on the whole
sequence.  For any other first token it is the call of `lsh_launch` on the
whole sequence, which forks once and, in the child, calls `execvp` once with
token 0 as the program and the whole sequence as its argument vector. -/
theorem lsh_execute_dispatch (os : OS) (args : List CStr) (w : World) :
    (args = [] → lsh_execute os args w = .ret 1 w) ∧
    (args.head? = some "cd".toList → lsh_execute os args w = lsh_cd os args w) ∧
    (args.head? = some "help".toList → lsh_execute os args w = lsh_help os args w) ∧
    (args.head? = some "exit".toList → lsh_execute os args w = lsh_exit os args w) ∧
    (∀ cmd, args.head? = some cmd →
      cmd ≠ "cd".toList → cmd ≠ "help".toList → cmd ≠ "exit".toList →
      lsh_execute os args w = lsh_launch os args w ∧
      (∀ e, os.fork w = .error e →
        (lsh_launch os args w).world.trace = w.trace ++ [Event.fork (-1)]) ∧
      (∀ n, os.fork w = .ok n → ∃ (ok : Bool) (waits : List WaitStatus),
        (lsh_launch os args w).world.trace =
          w.trace ++ [Event.fork (n + 1), Event.execvp (some cmd) args w.cwd ok] ++
            waits.map (Event.waitpid (n + 1)))) := by
  refine ⟨fun h => by rw [h]; rfl, ?_, ?_, ?_, ?_⟩
  · intro h
    cases args with
    | nil => simp at h
    | cons cmd rest =>
      simp only [List.head?_cons, Option.some.injEq] at h
      rw [lsh_execute_cons, if_pos h]
  · intro h
    cases args with
    | nil => simp at h
    | cons cmd rest =>
      simp only [List.head?_cons, Option.some.injEq] at h
      rw [lsh_execute_cons, h]
      rfl
  · intro h
    cases args with
    | nil => simp at h
    | cons cmd rest =>
      simp only [List.head?_cons, Option.some.injEq] at h
      rw [lsh_execute_cons, h]
      rfl
  · intro cmd h hcd hhelp hexit
    cases args with
    | nil => simp at h
    | cons cmd' rest =>
      simp only [List.head?_cons, Option.some.injEq] at h
      subst h
      refine ⟨by rw [lsh_execute_cons, if_neg hcd, if_neg hhelp, if_neg hexit], ?_, ?_⟩
      · intro e he
        rw [lsh_launch_fork_error os _ w he]
        rfl
      · intro n hn
        obtain ⟨ok, waits, htrace, _, _⟩ := lsh_launch_fork_ok os (cmd' :: rest) w hn
        exact ⟨ok, waits, htrace⟩

/-- C6 at `echo hello`, at the empty sequence, at `help me` and at a failing
`fork`. -/
theorem lsh_execute_dispatch_witness :
    lsh_execute os0 [] world0 = .ret 1 world0 ∧
    lsh_execute os0 ["help".toList, "me".toList] world0 =
      lsh_help os0 ["help".toList, "me".toList] world0 ∧
    lsh_execute os0 ["echo".toList, "hello".toList] world0 =
      lsh_launch os0 ["echo".toList, "hello".toList] world0 ∧
    (lsh_launch os0 ["echo".toList, "hello".toList] world0).world.trace =
      [Event.fork 42,
       Event.execvp (some "echo".toList) ["echo".toList, "hello".toList] "/home".toList true,
       Event.waitpid 42 (.stopped 19), Event.waitpid 42 (.exited 0)] ∧
    (lsh_launch os1 ["echo".toList, "hello".toList] world0).world.trace =
      world0.trace ++ [Event.fork (-1)] :=
  ⟨(lsh_execute_dispatch os0 [] world0).1 rfl,
   (lsh_execute_dispatch os0 ["help".toList, "me".toList] world0).2.2.1 rfl,
   ((lsh_execute_dispatch os0 ["echo".toList, "hello".toList] world0).2.2.2.2
      "echo".toList rfl (by decide) (by decide) (by decide)).1,
   by decide,
   ((lsh_execute_dispatch os1 ["echo".toList, "hello".toList] world0).2.2.2.2
      "echo".toList rfl (by decide) (by decide) (by decide)).2.1
      "Resource temporarily unavailable".toList rfl⟩

/-- C8. `lsh_help` returns 1 and appends to standard output, and to nothing
else, the three banner lines, one line per entry of `builtin_str` in order
(`cd`, `help`, `exit`, each after three spaces), and the closing line; the
result does not depend on the arguments. -/
theorem lsh_help_spec (os : OS) (args : List CStr) (w : World) :
    lsh_help os args w =
      .ret 1 { w with stdout := w.stdout ++
        ("Stephen Brennan's LSH\n" ++
         "Type program names and arguments, and hit enter.\n" ++
         "The following are built in:\n" ++
         "   cd\n   help\n   exit\n" ++
         "Use the man command for information on other programs.\n").toList } ∧
    ("   cd\n   help\n   exit\n").toList =
      (builtin_str.map fun name => "   ".toList ++ name.toList ++ "\n".toList).flatten ∧
    builtin_str = ["cd", "help", "exit"] ∧
    ∀ (os' : OS) (args' : List CStr), lsh_help os' args' w = lsh_help os args w := by
  refine ⟨?_, by decide, rfl, fun _ _ => rfl⟩
  have hrange : List.range lsh_num_builtins = [0, 1, 2] := rfl
  unfold lsh_help
  simp only [hrange, List.foldl, puts, printf, List.append_assoc]
  congr 2

/-- C9. In the parent branch of `lsh_launch` (`pid > 0`): if the statuses
delivered for the child are first some that are neither `exited` nor
`signaled` and then one that is, the branch calls `waitpid` on that pid once
per status up to and including that one, on no later status, and returns 1;
if no delivered status is `exited` or `signaled` it never returns; a
`stopped` status is neither. -/
theorem lsh_launch_wait (os : OS) (pid : Int) (hpid : 0 < pid) (args : List CStr)
    (w : World) :
    (∀ (pre : List WaitStatus) (r : WaitStatus) (post : List WaitStatus),
      os.waitpid w pid = pre ++ r :: post →
      (∀ st ∈ pre, WIFEXITED st = false ∧ WIFSIGNALED st = false) →
      (WIFEXITED r = true ∨ WIFSIGNALED r = true) →
      lsh_launch_pid os pid args w =
        .ret 1 { w with trace := w.trace ++ (pre ++ [r]).map (Event.waitpid pid) }) ∧
    ((∀ st ∈ os.waitpid w pid, WIFEXITED st = false ∧ WIFSIGNALED st = false) →
      lsh_launch_pid os pid args w =
        .hang { w with trace := w.trace ++ (os.waitpid w pid).map (Event.waitpid pid) }) ∧
    (∀ sig, WIFEXITED (.stopped sig) = false ∧ WIFSIGNALED (.stopped sig) = false) := by
  refine ⟨?_, ?_, fun _ => ⟨rfl, rfl⟩⟩
  · intro pre r post hrep hpre hr
    rw [lsh_launch_pid_parent os pid hpid, hrep, wait_loop_ret pid pre r post hpre hr]
    rfl
  · intro hall
    rw [lsh_launch_pid_parent os pid hpid, wait_loop_hang pid _ hall]
    rfl

/-- C9 for a child that is stopped and then exits, and for one that stays
stopped. -/
theorem lsh_launch_wait_witness :
    lsh_launch_pid os0 42 ["ls".toList] world0 =
      .ret 1 { world0 with
        trace := [Event.waitpid 42 (.stopped 19), Event.waitpid 42 (.exited 0)] } ∧
    lsh_launch_pid os1 42 ["ls".toList] world0 =
      .hang { world0 with trace := [Event.waitpid 42 (.stopped 19)] } :=
  ⟨(lsh_launch_wait os0 42 (by decide) ["ls".toList] world0).1
      [.stopped 19] (.exited 0) [] rfl (by decide) (by decide),
   (lsh_launch_wait os1 42 (by decide) ["ls".toList] world0).2.1 (by decide)⟩

/-! ## Facts about the loop -/

theorem lsh_run_line_eq (os : OS) (halloc : ∀ w n, os.alloc w n = true) (line : CStr)
    (w : World) (hfit : ((bufsizeFor (maximalRuns line).length : Nat) : Int) ≤ INT_MAX) :
    lsh_run_line os line w = lsh_execute os (maximalRuns line) w := by
  unfold lsh_run_line
  rw [lsh_split_line_mem_ok (halloc w) line hfit]
  simp only [argv_tokenBlock]

theorem lsh_run_line_alloc (os : OS) (line : CStr) (w : World)
    (h : lsh_split_line_mem (os.alloc w) INT_MAX line = .error .alloc) :
    lsh_run_line os line w =
      .exit EXIT_FAILURE (fprintf_stderr "lsh: allocation error\n" w) := by
  unfold lsh_run_line
  rw [h]

theorem lsh_split_line_mem_alloc (allocOk : Nat → Bool) (line : CStr)
    (h : allocOk LSH_TOK_BUFSIZE = false) :
    lsh_split_line_mem allocOk INT_MAX line = .error .alloc := by
  unfold lsh_split_line_mem split_init
  rw [int_val_ok (by unfold LSH_TOK_BUFSIZE; omega) (by unfold LSH_TOK_BUFSIZE INT_MAX; omega)]
  simp only [Int.toNat_ofNat, h]
  rfl

theorem lsh_read_line_line (w : World) (l : List Char) (rest : List Input)
    (h : w.stdin = .line l :: rest) :
    lsh_read_line w = .ret (cstr l) { w with stdin := rest } := by
  unfold lsh_read_line
  rw [h]

theorem lsh_loop_body_read (os : OS) (w : World) (l : List Char) (rest : List Input)
    (h : w.stdin = .line l :: rest) :
    lsh_loop_body os w = lsh_run_line os (cstr l) { printf "> " w with stdin := rest } := by
  unfold lsh_loop_body
  rw [lsh_read_line_line (printf "> " w) l rest h]
  rfl

theorem lsh_loop_body_line (os : OS) (halloc : ∀ w n, os.alloc w n = true) (w : World)
    (l : List Char) (rest : List Input) (h : w.stdin = .line l :: rest)
    (hs : shortLine l = true) :
    lsh_loop_body os w = lsh_execute os (lineTokens l) { printf "> " w with stdin := rest } := by
  rw [lsh_loop_body_read os w l rest h, lsh_run_line_eq os halloc _ _ (by simpa [shortLine] using hs)]
  rfl

theorem lsh_loop_body_eof (os : OS) (w : World) (h : w.stdin = []) :
    lsh_loop_body os w = .exit EXIT_SUCCESS (printf "> " w) := by
  unfold lsh_loop_body lsh_read_line
  rw [show (printf "> " w).stdin = [] from h]
  rfl

theorem lsh_launch_child_untouched (os : OS) (hq : os.quietChildren) (args : List CStr)
    (w : World) :
    (lsh_launch_pid os 0 args w).world.stdin = w.stdin ∧
      (lsh_launch_pid os 0 args w).world.reflushed = w.reflushed := by
  unfold lsh_launch_pid
  rw [if_pos (by rfl)]
  cases hexec : os.execvp w args.head? args with
  | ok u => exact ⟨rfl, rfl⟩
  | error e =>
    rcases hq with hall | hquiet
    · rw [hall] at hexec
      cases hexec
    · simp only [exit_child, Res.world]
      obtain ⟨h0, hrew⟩ := hquiet
        (perror "lsh" { w.log (.execvp args.head? args w.cwd false) with errno := e })
      rw [h0, hrew]
      exact ⟨rfl, by simp [perror, World.log]⟩

theorem lsh_launch_untouched (os : OS) (hq : os.quietChildren) (args : List CStr)
    (w : World) :
    (lsh_launch os args w).world.stdin = w.stdin ∧
      (lsh_launch os args w).world.reflushed = w.reflushed := by
  unfold lsh_launch
  cases hfork : os.fork w with
  | error e => exact ⟨rfl, rfl⟩
  | ok n =>
    simp only
    rw [lsh_launch_pid_parent os _ (by omega), res_bind_ret_world]
    obtain ⟨h1, h2⟩ := lsh_launch_child_untouched os hq args (w.log (Event.fork (↑n + 1)))
    obtain ⟨waits, rest, _, hw⟩ := wait_loop_world (↑n + 1)
      (os.waitpid { (lsh_launch_pid os 0 args (w.log (Event.fork (↑n + 1)))).world with
        cwd := (w.log (Event.fork (↑n + 1))).cwd,
        errno := (w.log (Event.fork (↑n + 1))).errno } (↑n + 1))
      { (lsh_launch_pid os 0 args (w.log (Event.fork (↑n + 1)))).world with
        cwd := (w.log (Event.fork (↑n + 1))).cwd,
        errno := (w.log (Event.fork (↑n + 1))).errno }
    rw [hw]
    exact ⟨h1, h2⟩

theorem lsh_cd_untouched (os : OS) (args : List CStr) (w : World) :
    (lsh_cd os args w).world.stdin = w.stdin ∧
      (lsh_cd os args w).world.reflushed = w.reflushed := by
  unfold lsh_cd
  cases args.get? 1 with
  | none => exact ⟨rfl, rfl⟩
  | some dir =>
    simp only [chdir]
    cases os.chdir w dir with
    | ok u => exact ⟨rfl, rfl⟩
    | error e => exact ⟨rfl, rfl⟩

theorem lsh_help_untouched (os : OS) (args : List CStr) (w : World) :
    (lsh_help os args w).world.stdin = w.stdin ∧
      (lsh_help os args w).world.reflushed = w.reflushed := by
  have hrange : List.range lsh_num_builtins = [0, 1, 2] := rfl
  unfold lsh_help
  simp only [hrange, List.foldl, puts, printf, Res.world]
  exact ⟨trivial, trivial⟩

theorem lsh_execute_untouched (os : OS) (hq : os.quietChildren) (args : List CStr)
    (w : World) :
    (lsh_execute os args w).world.stdin = w.stdin ∧
      (lsh_execute os args w).world.reflushed = w.reflushed := by
  cases args with
  | nil => exact ⟨rfl, rfl⟩
  | cons cmd rest =>
    rw [lsh_execute_cons]
    split
    · exact lsh_cd_untouched os _ w
    · split
      · exact lsh_help_untouched os _ w
      · split
        · exact ⟨rfl, rfl⟩
        · exact lsh_launch_untouched os hq _ w

theorem lsh_loop_succ (os : OS) (n : Nat) (w : World) :
    lsh_loop os (n + 1) w =
      (lsh_loop_body os w).bind fun status w1 =>
        if status != 0 then lsh_loop os n w1 else .ret () w1 := rfl

theorem lsh_pass_exit (os : OS) (halloc : ∀ w n, os.alloc w n = true) (w : World)
    (l : List Char) (rest : List Input) (h : w.stdin = .line l :: rest)
    (hs : shortLine l = true) (hexit : (lineTokens l).head? = some "exit".toList) :
    lsh_loop_body os w = .ret 0 { printf "> " w with stdin := rest } := by
  rw [lsh_loop_body_line os halloc w l rest h hs, lsh_execute_head_exit os _ _ hexit]

theorem lsh_pass_other (os : OS) (halloc : ∀ w n, os.alloc w n = true)
    (hwait : ∀ w1 pid, ∃ st ∈ os.waitpid w1 pid, (WIFEXITED st || WIFSIGNALED st) = true)
    (hq : os.quietChildren) (w : World) (l : List Char) (rest : List Input)
    (h : w.stdin = .line l :: rest) (hs : shortLine l = true)
    (hne : (lineTokens l).head? ≠ some "exit".toList) :
    ∃ w', lsh_loop_body os w = .ret 1 w' ∧ w'.stdin = rest ∧ w'.reflushed = w.reflushed := by
  obtain ⟨w', hw'⟩ := (lsh_execute_head_other os (lineTokens l)
    { printf "> " w with stdin := rest } hne).2 hwait
  obtain ⟨h1, h2⟩ := lsh_execute_untouched os hq (lineTokens l)
    { printf "> " w with stdin := rest }
  rw [hw'] at h1 h2
  exact ⟨w', by rw [lsh_loop_body_line os halloc w l rest h hs, hw'], h1, h2⟩

theorem lsh_loop_stops (os : OS) (halloc : ∀ w n, os.alloc w n = true)
    (hwait : ∀ w1 pid, ∃ st ∈ os.waitpid w1 pid, (WIFEXITED st || WIFSIGNALED st) = true)
    (hq : os.quietChildren) (pre : List (List Char)) (l : List Char)
    (post : List (List Char)) :
    ∀ (passes : Nat) (w : World), w.stdin = (pre ++ l :: post).map Input.line →
      pre.length < passes → (∀ x ∈ pre, shortLine x = true) → shortLine l = true →
      (∀ x ∈ pre, (lineTokens x).head? ≠ some "exit".toList) →
      (lineTokens l).head? = some "exit".toList →
      lsh_loop os passes w = .ret () (afterPasses os (pre.length + 1) w) ∧
      (afterPasses os (pre.length + 1) w).stdin = post.map Input.line ∧
      (afterPasses os (pre.length + 1) w).reflushed = w.reflushed := by
  induction pre with
  | nil =>
    intro passes w hin hpasses _ hsl _ hexit
    obtain ⟨n, rfl⟩ : ∃ n, passes = n + 1 := ⟨passes - 1, by simp at hpasses; omega⟩
    have hbody := lsh_pass_exit os halloc w l (post.map Input.line) hin hsl hexit
    have hafter : afterPasses os ([] : List (List Char)).length.succ w =
        { printf "> " w with stdin := post.map Input.line } := by
      show (lsh_loop_body os w).world = _
      rw [hbody]
      rfl
    rw [lsh_loop_succ, hbody]
    exact ⟨by rw [hafter]; rfl, by rw [hafter], by rw [hafter]; rfl⟩
  | cons x xs ih =>
    intro passes w hin hpasses hspre hsl hpre hexit
    obtain ⟨n, rfl⟩ : ∃ n, passes = n + 1 := ⟨passes - 1, by simp at hpasses; omega⟩
    obtain ⟨w', hbody, hstdin, hrefl⟩ := lsh_pass_other os halloc hwait hq w x
      ((xs ++ l :: post).map Input.line) hin (hspre x (List.mem_cons_self _ _))
      (hpre x (List.mem_cons_self _ _))
    have hafter : afterPasses os ((x :: xs).length + 1) w = afterPasses os (xs.length + 1) w' := by
      show afterPasses os (xs.length + 1) (lsh_loop_body os w).world = _
      rw [hbody]
      rfl
    obtain ⟨h1, h2, h3⟩ := ih n w' hstdin (by simp at hpasses; omega)
      (fun y hy => hspre y (List.mem_cons_of_mem _ hy)) hsl
      (fun y hy => hpre y (List.mem_cons_of_mem _ hy)) hexit
    rw [lsh_loop_succ, hbody, hafter]
    exact ⟨h1, h2, by rw [h3, hrefl]⟩

theorem lsh_loop_eof (os : OS) (halloc : ∀ w n, os.alloc w n = true)
    (hwait : ∀ w1 pid, ∃ st ∈ os.waitpid w1 pid, (WIFEXITED st || WIFSIGNALED st) = true)
    (hq : os.quietChildren) (lines : List (List Char)) :
    ∀ (passes : Nat) (w : World), w.stdin = lines.map Input.line →
      lines.length < passes → (∀ x ∈ lines, shortLine x = true) →
      (∀ x ∈ lines, (lineTokens x).head? ≠ some "exit".toList) →
      lsh_loop os passes w = .exit EXIT_SUCCESS (printf "> " (afterPasses os lines.length w)) ∧
      (afterPasses os lines.length w).stdin = [] ∧
      (afterPasses os lines.length w).reflushed = w.reflushed := by
  induction lines with
  | nil =>
    intro passes w hin hpasses _ _
    obtain ⟨n, rfl⟩ : ∃ n, passes = n + 1 := ⟨passes - 1, by simp at hpasses; omega⟩
    rw [lsh_loop_succ, lsh_loop_body_eof os w hin]
    exact ⟨rfl, hin, rfl⟩
  | cons x xs ih =>
    intro passes w hin hpasses hs hne
    obtain ⟨n, rfl⟩ : ∃ n, passes = n + 1 := ⟨passes - 1, by simp at hpasses; omega⟩
    obtain ⟨w', hbody, hstdin, hrefl⟩ := lsh_pass_other os halloc hwait hq w x
      (xs.map Input.line) hin (hs x (List.mem_cons_self _ _)) (hne x (List.mem_cons_self _ _))
    have hafter : afterPasses os (x :: xs).length w = afterPasses os xs.length w' := by
      show afterPasses os xs.length (lsh_loop_body os w).world = _
      rw [hbody]
      rfl
    obtain ⟨h1, h2, h3⟩ := ih n w' hstdin (by simp at hpasses; omega)
      (fun y hy => hs y (List.mem_cons_of_mem _ hy))
      (fun y hy => hne y (List.mem_cons_of_mem _ hy))
    rw [lsh_loop_succ, hbody, hafter]
    exact ⟨h1, h2, by rw [h3, hrefl]⟩

theorem lsh_loop_body_status (os : OS) (halloc : ∀ w n, os.alloc w n = true)
    (hwait : ∀ w1 pid, ∃ st ∈ os.waitpid w1 pid, (WIFEXITED st || WIFSIGNALED st) = true)
    (w : World) (l : List Char) (rest : List Input) (h : w.stdin = .line l :: rest)
    (hs : shortLine l = true) :
    ((∃ w', lsh_loop_body os w = .ret 0 w') ↔
      (lineTokens l).head? = some "exit".toList) ∧
    ((lineTokens l).head? ≠ some "exit".toList → ∃ w', lsh_loop_body os w = .ret 1 w') := by
  rw [lsh_loop_body_line os halloc w l rest h hs]
  refine ⟨⟨?_, fun h => ⟨_, lsh_execute_head_exit os _ _ h⟩⟩,
    fun hne => (lsh_execute_head_other os _ _ hne).2 hwait⟩
  rintro ⟨w', hw'⟩
  by_contra hne
  obtain ⟨w'', hw''⟩ := (lsh_execute_head_other os _ _ hne).2 hwait
  rw [hw''] at hw'
  cases hw'

theorem lsh_pass_cd_tmp (os : OS) (halloc : ∀ w n, os.alloc w n = true)
    (hcd : ∀ w1, os.chdir w1 "/tmp".toList = .ok ()) (w : World) (rest : List Input)
    (h : w.stdin = .line "cd /tmp".toList :: rest) :
    lsh_loop_body os w =
      .ret 1 { w with cwd := "/tmp".toList, stdout := w.stdout ++ "> ".toList,
                      trace := w.trace ++ [Event.chdir "/tmp".toList true],
                      stdin := rest } := by
  rw [lsh_loop_body_line os halloc w _ rest h (by decide)]
  have htok : lineTokens "cd /tmp".toList = ["cd".toList, "/tmp".toList] := by decide
  rw [htok]
  have hexec : lsh_execute os ["cd".toList, "/tmp".toList]
      { printf "> " w with stdin := rest } =
      lsh_cd os ["cd".toList, "/tmp".toList] { printf "> " w with stdin := rest } := rfl
  rw [hexec, lsh_cd_ok os _ _ _ _ (hcd _)]
  rfl

theorem lsh_pass_pwd (os : OS) (halloc : ∀ w n, os.alloc w n = true)
    (hwait : ∀ w1 pid, ∃ st ∈ os.waitpid w1 pid, (WIFEXITED st || WIFSIGNALED st) = true)
    (hq : os.quietChildren) {n : Nat} (hfork : ∀ w1, os.fork w1 = .ok n) (w : World)
    (rest : List Input) (h : w.stdin = .line "pwd".toList :: rest) :
    ∃ (ok : Bool) (waits : List WaitStatus) (w' : World),
      lsh_loop_body os w = .ret 1 w' ∧
      w'.trace = w.trace ++ [Event.fork (n + 1),
          Event.execvp (some "pwd".toList) ["pwd".toList] w.cwd ok] ++
          waits.map (Event.waitpid (n + 1)) ∧
      w'.cwd = w.cwd ∧ w'.stdout = w.stdout ++ "> ".toList ∧ w'.stdin = rest := by
  have htok : lineTokens "pwd".toList = ["pwd".toList] := by decide
  have hexec : lsh_execute os ["pwd".toList] { printf "> " w with stdin := rest } =
      lsh_launch os ["pwd".toList] { printf "> " w with stdin := rest } := rfl
  obtain ⟨w', hw'⟩ := lsh_launch_done os ["pwd".toList]
    { printf "> " w with stdin := rest } hwait
  obtain ⟨ok, waits, h1, h2, h3⟩ :=
    lsh_launch_fork_ok os ["pwd".toList] { printf "> " w with stdin := rest } (hfork _)
  obtain ⟨h4, _⟩ := lsh_launch_untouched os hq ["pwd".toList]
    { printf "> " w with stdin := rest }
  rw [hw'] at h1 h2 h3 h4
  refine ⟨ok, waits, w', ?_, h1, h2, h3, h4⟩
  rw [lsh_loop_body_line os halloc w _ rest h (by decide), htok, hexec, hw']

/-! ## The loop: claim -/

/-- C7, as the code has it.  Let standard input hold lines followed by end of
input.  A pass through the loop body writes the prompt, reads the next line
and, when the allocations are granted and the line has fewer than
`2^31 - 64` tokens, executes the tokens of the line up to its first NUL.
Suppose moreover that every wait is answered by a final status and that the
children leave the streams alone (`quietChildren`).  Then a pass returns the
terminate signal exactly when its line starts with `exit`, and 1 otherwise.
If the first line that starts with `exit` comes after the lines `pre`, the
loop returns after `pre.length + 1` passes with the lines behind it unread,
and `main` returns 0.  If no line starts with `exit`, every line gets its
pass and the process exits with status 0 at end of input, after one more
prompt.  On the lines `cd /tmp`, `pwd`, `exit`, when `chdir` to `/tmp` and
`fork` succeed, `pwd` is started with working directory `/tmp`, three
prompts are written, and `main` returns 0.  When an allocation is refused,
the pass ends the process with status `EXIT_FAILURE` after the message
`lsh: allocation error`. -/
theorem lsh_loop_spec (os : OS) (w : World) :
    ((∀ w n, os.alloc w n = true) →
     (∀ w1 pid, ∃ st ∈ os.waitpid w1 pid, (WIFEXITED st || WIFSIGNALED st) = true) →
     os.quietChildren →
      (∀ (l : List Char) (rest : List Input), w.stdin = .line l :: rest → shortLine l = true →
        lsh_loop_body os w =
          lsh_execute os (lineTokens l) { printf "> " w with stdin := rest } ∧
        ((∃ w2, lsh_loop_body os w = .ret 0 w2) ↔
          (lineTokens l).head? = some "exit".toList) ∧
        ((lineTokens l).head? ≠ some "exit".toList →
          ∃ w2, lsh_loop_body os w = .ret 1 w2)) ∧
      (∀ (pre : List (List Char)) (l : List Char) (post : List (List Char)) (passes : Nat),
        w.stdin = (pre ++ l :: post).map Input.line → pre.length < passes →
        (∀ x ∈ pre, shortLine x = true) → shortLine l = true →
        (∀ x ∈ pre, (lineTokens x).head? ≠ some "exit".toList) →
        (lineTokens l).head? = some "exit".toList →
        lsh_loop os passes w = .ret () (afterPasses os (pre.length + 1) w) ∧
        main os passes w = .ret EXIT_SUCCESS (afterPasses os (pre.length + 1) w) ∧
        (afterPasses os (pre.length + 1) w).stdin = post.map Input.line ∧
        (afterPasses os (pre.length + 1) w).reflushed = w.reflushed) ∧
      (∀ (lines : List (List Char)) (passes : Nat),
        w.stdin = lines.map Input.line → lines.length < passes →
        (∀ x ∈ lines, shortLine x = true) →
        (∀ x ∈ lines, (lineTokens x).head? ≠ some "exit".toList) →
        main os passes w =
          .exit EXIT_SUCCESS (printf "> " (afterPasses os lines.length w)) ∧
        (afterPasses os lines.length w).stdin = [] ∧
        (afterPasses os lines.length w).reflushed = w.reflushed) ∧
      (w.stdin = [.line "cd /tmp".toList, .line "pwd".toList, .line "exit".toList] →
        (∀ w1, os.chdir w1 "/tmp".toList = .ok ()) → ∀ n, (∀ w1, os.fork w1 = .ok n) →
        ∀ passes, 3 ≤ passes →
        ∃ (ok : Bool) (waits : List WaitStatus) (w' : World),
          main os passes w = .ret EXIT_SUCCESS w' ∧
          w'.trace = w.trace ++ [Event.chdir "/tmp".toList true, Event.fork (n + 1),
            Event.execvp (some "pwd".toList) ["pwd".toList] "/tmp".toList ok] ++
            waits.map (Event.waitpid (n + 1)) ∧
          w'.cwd = "/tmp".toList ∧
          w'.stdout = w.stdout ++ "> > > ".toList ∧
          w'.stdin = [])) ∧
    (∀ (l : List Char) (rest : List Input), w.stdin = .line l :: rest →
      lsh_split_line_mem (os.alloc { printf "> " w with stdin := rest }) INT_MAX (cstr l) =
        .error .alloc →
      lsh_loop_body os w =
        .exit EXIT_FAILURE
          (fprintf_stderr "lsh: allocation error\n" { printf "> " w with stdin := rest }) ∧
      ∀ passes, 0 < passes →
        main os passes w =
          .exit EXIT_FAILURE
            (fprintf_stderr "lsh: allocation error\n"
              { printf "> " w with stdin := rest })) := by
  refine ⟨fun halloc hwait hq => ⟨?_, ?_, ?_, ?_⟩, ?_⟩
  · intro l rest hin hs
    exact ⟨lsh_loop_body_line os halloc w l rest hin hs,
      lsh_loop_body_status os halloc hwait w l rest hin hs⟩
  · intro pre l post passes hin hpasses hspre hsl hpre hexit
    obtain ⟨h1, h2, h3⟩ :=
      lsh_loop_stops os halloc hwait hq pre l post passes w hin hpasses hspre hsl hpre hexit
    refine ⟨h1, ?_, h2, h3⟩
    unfold main
    rw [h1]
    rfl
  · intro lines passes hin hpasses hs hne
    obtain ⟨h1, h2, h3⟩ := lsh_loop_eof os halloc hwait hq lines passes w hin hpasses hs hne
    refine ⟨?_, h2, h3⟩
    unfold main
    rw [h1]
    rfl
  · intro hin hcd n hfork passes hpasses
    obtain ⟨p, rfl⟩ : ∃ p, passes = p + 1 + 1 + 1 := ⟨passes - 3, by omega⟩
    have h1 := lsh_pass_cd_tmp os halloc hcd w _ hin
    obtain ⟨ok, waits, w2, h2, htrace, hcwd, hout, hin2⟩ :=
      lsh_pass_pwd os halloc hwait hq hfork
        { w with cwd := "/tmp".toList, stdout := w.stdout ++ "> ".toList,
                 trace := w.trace ++ [Event.chdir "/tmp".toList true],
                 stdin := [.line "pwd".toList, .line "exit".toList] }
        [.line "exit".toList] rfl
    have h3 := lsh_pass_exit os halloc w2 "exit".toList [] hin2 (by decide) (by decide)
    refine ⟨ok, waits, { printf "> " w2 with stdin := [] }, ?_, ?_, ?_, ?_, rfl⟩
    · unfold main
      rw [lsh_loop_succ, h1]
      show ((lsh_loop os (p + 1 + 1) _).bind _) = _
      rw [lsh_loop_succ, h2]
      show ((lsh_loop os (p + 1) _).bind _) = _
      rw [lsh_loop_succ, h3]
      rfl
    · show w2.trace = _
      rw [htrace]
      simp
    · show w2.cwd = _
      rw [hcwd]
    · show w2.stdout ++ "> ".toList = _
      rw [hout]
      simp
  · intro l rest hin halloc
    have hbody : lsh_loop_body os w =
        .exit EXIT_FAILURE
          (fprintf_stderr "lsh: allocation error\n" { printf "> " w with stdin := rest }) := by
      rw [lsh_loop_body_read os w l rest hin, lsh_run_line_alloc os _ _ halloc]
    refine ⟨hbody, fun passes hpasses => ?_⟩
    obtain ⟨p, rfl⟩ : ∃ p, passes = p + 1 := ⟨passes - 1, by omega⟩
    unfold main
    rw [lsh_loop_succ, hbody]
    rfl

set_option maxRecDepth 100000 in
/-- C7 in the sample environment: the lines `cd /tmp`, `pwd`, `exit`; the same
followed by a line that is never read; two lines without `exit`; and a line
of 64 tokens when the block may not grow. -/
theorem lsh_loop_spec_witness :
    main os0 3 { world0 with stdin :=
        [.line "cd /tmp".toList, .line "pwd".toList, .line "exit".toList] } =
      .ret EXIT_SUCCESS
        { cwd := "/tmp".toList, errno := [], stdout := "> > > ".toList, stderr := [],
          trace := [Event.chdir "/tmp".toList true, Event.fork 42,
            Event.execvp (some "pwd".toList) ["pwd".toList] "/tmp".toList true,
            Event.waitpid 42 (.stopped 19), Event.waitpid 42 (.exited 0)],
          stdin := [], reflushed := [] } ∧
    (afterPasses os0 3 { world0 with stdin := (List.map Input.line
        (["cd /tmp".toList, "pwd".toList] ++ "exit\x00 now".toList :: ["ls".toList])) }).stdin = [Input.line "ls".toList] ∧
    main os0 3 { world0 with stdin := ["cd /tmp".toList, "pwd".toList].map Input.line } =
      .exit EXIT_SUCCESS
        (printf "> " (afterPasses os0 2
          { world0 with stdin := ["cd /tmp".toList, "pwd".toList].map Input.line })) ∧
    main os1 1 { world0 with stdin := [Input.line (tokenLine 64)] } =
      .exit EXIT_FAILURE
        (fprintf_stderr "lsh: allocation error\n" { printf "> " world0 with stdin := [] }) :=
  ⟨by decide,
   (((lsh_loop_spec os0 { world0 with stdin := (List.map Input.line
        (["cd /tmp".toList, "pwd".toList] ++ "exit\x00 now".toList :: ["ls".toList])) }).1
      (fun _ _ => rfl) (fun _ _ => ⟨.exited 0, by simp [os0], rfl⟩)
      (Or.inr (fun _ => ⟨rfl, rfl⟩))).2.1
      ["cd /tmp".toList, "pwd".toList] "exit\x00 now".toList ["ls".toList] 3 rfl
      (by decide) (by decide) (by decide) (by decide) (by decide)).2.2.1,
   (((lsh_loop_spec os0
        { world0 with stdin := ["cd /tmp".toList, "pwd".toList].map Input.line }).1
      (fun _ _ => rfl) (fun _ _ => ⟨.exited 0, by simp [os0], rfl⟩)
      (Or.inr (fun _ => ⟨rfl, rfl⟩))).2.2.1
      ["cd /tmp".toList, "pwd".toList] 3 rfl (by decide) (by decide) (by decide)).1,
   ((lsh_loop_spec os1 { world0 with stdin := [Input.line (tokenLine 64)] }).2
      (tokenLine 64) [] rfl (by rfl)).2 1 (by decide)⟩

set_option maxRecDepth 100000 in
/-- C7 fails as stated when an allocation is refused.  The input is one line
of 64 tokens and `realloc` is refused: no line returns the terminate signal,
yet the line is not executed and the process ends with status 1, not 0. -/
theorem lsh_loop_alloc_refused :
    main os1 2 { world0 with stdin := [Input.line (tokenLine 64)] } =
      .exit 1 { world0 with stdout := "> ".toList,
                            stderr := "lsh: allocation error\n".toList } := by
  decide

/-- What C7 leaves out: a child that fails to start a program ends through
`exit`.  With output that is still buffered and a seekable input (`os2`), on
the lines `nosuchprog`, `exit` the child writes the prompt a second time and
the line `exit`, already consumed, is left to be read again. -/
theorem child_exit_repeats :
    (main os2 2 world2).world.stdout = "> > ".toList ∧
    (main os2 2 world2).world.reflushed = "> ".toList ∧
    (main os2 2 world2).world.stdin = [.line "exit".toList] := by
  decide

/-! ## The token block: claim -/

theorem loopHead_inv {allocOk : Nat → Bool} {intMax : Int} {line : CStr} {s : SplitState}
    (h : LoopHead allocOk intMax line s) :
    ∃ acc, SplitInv intMax s acc ∧ acc.length + s.steps ≤ line.length + 1 := by
  induction h with
  | init hinit =>
    obtain ⟨hinv, _, hst⟩ := split_init_inv hinit
    exact ⟨[], hinv, by simpa using hst⟩
  | body hs htok hbody ih =>
    obtain ⟨acc, hinv, hst⟩ := ih
    obtain ⟨hinv', _, hst'⟩ := split_body_inv hinv hbody
    refine ⟨acc ++ [_], hinv', ?_⟩
    simp only [SplitState.steps, htok] at hst
    simp only [List.length_append, List.length_singleton]
    omega

theorem split_init_cases (allocOk : Nat → Bool) (intMax : Int) (line : CStr) :
    (∃ s, split_init allocOk intMax line = .ok s) ∨
      split_init allocOk intMax line = .error .alloc ∨
      split_init allocOk intMax line = .error .overflow := by
  unfold split_init
  by_cases hfit : (LSH_TOK_BUFSIZE : Int) ≤ intMax
  · rw [int_val_ok (by unfold LSH_TOK_BUFSIZE; omega) hfit]
    simp only
    split
    · exact Or.inl ⟨_, rfl⟩
    · exact Or.inr (Or.inl rfl)
  · rw [int_val_overflow (by omega)]
    exact Or.inr (Or.inr rfl)

theorem steps_pos (s : SplitState) : 1 ≤ s.steps := by
  unfold SplitState.steps
  split <;> omega

theorem tokenLine_succ (n : Nat) : tokenLine (n + 1) = 'a' :: ' ' :: tokenLine n := by
  simp [tokenLine, List.replicate_succ]

theorem maximalRuns_tokenLine (n : Nat) : maximalRuns (tokenLine n) = List.replicate n ['a'] := by
  induction n with
  | zero => exact maximalRuns_nil
  | succ n ih =>
    rw [tokenLine_succ, maximalRuns_cons_run _ (by decide)]
    have h1 : List.takeWhile (fun x => !isDelim x) (' ' :: tokenLine n) = [] :=
      List.takeWhile_cons_of_neg (by decide)
    have h2 : List.dropWhile (fun x => !isDelim x) (' ' :: tokenLine n) = ' ' :: tokenLine n :=
      List.dropWhile_cons_of_neg (by decide)
    rw [h1, h2, List.drop_one, List.tail_cons, ih, List.replicate_succ]

theorem bufsizeFor_int_max (n : Nat) :
    ((bufsizeFor n : Nat) : Int) ≤ INT_MAX ↔ n < 2147483584 := by
  unfold bufsizeFor LSH_TOK_BUFSIZE INT_MAX
  omega

/-- C10, as the code has it.  Whatever the allocator answers, whatever the
largest `int` and whatever the line: at every head of the `while` loop of
`lsh_split_line`, `0 ≤ position < bufsize`, the block has `bufsize` entries,
`bufsize` is 64 times one more than the number of full chunks of 64 that
`position` has passed and is an `int`, so a store of a token or of the
terminator at `position` is inside the block; and the function never fails by
a store outside the block nor by running out of steps.  When every allocation
is granted and the size the block has at the end is an `int` (with 32 bits:
when the line has fewer than `2^31 - 64` tokens), the function returns the
block holding the tokens followed by one terminator, and that block is
longer than the token count.  When that size is no `int`, growing `bufsize`
overflows and no block is returned. -/
theorem lsh_split_line_bounds (allocOk : Nat → Bool) (intMax : Int) (line : CStr) :
    (∀ s, LoopHead allocOk intMax line s →
      0 ≤ s.position ∧ s.position < s.bufsize ∧ (s.tokens.length : Int) = s.bufsize ∧
      s.bufsize = (LSH_TOK_BUFSIZE : Int) * (s.position / (LSH_TOK_BUFSIZE : Int) + 1) ∧
      s.bufsize ≤ intMax ∧
      (∀ v, store s.tokens s.position v = .ok (s.tokens.set s.position.toNat v)) ∧
      s.position ≤ line.length) ∧
    lsh_split_line_mem allocOk intMax line ≠ .error .outOfBounds ∧
    lsh_split_line_mem allocOk intMax line ≠ .error .fuel ∧
    ((∀ n, allocOk n = true) →
      ((bufsizeFor (maximalRuns line).length : Nat) : Int) ≤ intMax →
      lsh_split_line_mem allocOk intMax line = .ok (tokenBlock (maximalRuns line)) ∧
      tokenBlock (maximalRuns line) =
        (maximalRuns line).map Cell.ptr ++ Cell.null ::
          List.replicate ((tokenBlock (maximalRuns line)).length - (maximalRuns line).length - 1)
            Cell.uninit ∧
      (tokenBlock (maximalRuns line)).length =
        LSH_TOK_BUFSIZE * ((maximalRuns line).length / LSH_TOK_BUFSIZE + 1) ∧
      (maximalRuns line).length < (tokenBlock (maximalRuns line)).length) ∧
    ((∀ n, allocOk n = true) →
      intMax < ((bufsizeFor (maximalRuns line).length : Nat) : Int) →
      lsh_split_line_mem allocOk intMax line = .error .overflow) ∧
    (((bufsizeFor (maximalRuns line).length : Nat) : Int) ≤ INT_MAX ↔
      (maximalRuns line).length < 2 ^ 31 - 64) := by
  have hcases : (∃ block, lsh_split_line_mem allocOk intMax line = .ok block) ∨
      lsh_split_line_mem allocOk intMax line = .error .alloc ∨
      lsh_split_line_mem allocOk intMax line = .error .overflow := by
    unfold lsh_split_line_mem
    rcases split_init_cases allocOk intMax line with ⟨s, hinit⟩ | hinit | hinit
    · obtain ⟨hinv, _, hst⟩ := split_init_inv hinit
      rw [hinit]
      exact split_loop_cases allocOk _ s [] hinv hst
    · rw [hinit]
      exact Or.inr (Or.inl rfl)
    · rw [hinit]
      exact Or.inr (Or.inr rfl)
  refine ⟨?_, ?_, ?_, ?_, ?_, ?_⟩
  · intro s hs
    obtain ⟨acc, hinv, hsteps⟩ := loopHead_inv hs
    obtain ⟨h0, h1, h2, h3, h4⟩ := splitInv_bounds hinv
    have hpos := steps_pos s
    have hp := hinv.1
    exact ⟨h0, h1, h2, h3, h4, fun v => (store_inv hinv v).2, by omega⟩
  · rcases hcases with ⟨b, hb⟩ | hb | hb <;> rw [hb] <;> simp
  · rcases hcases with ⟨b, hb⟩ | hb | hb <;> rw [hb] <;> simp
  · intro hall hfit
    have hlen := tokenBlock_length (maximalRuns line)
    obtain ⟨hlt, _, hdef⟩ := bufsizeFor_bounds (maximalRuns line).length
    refine ⟨lsh_split_line_mem_ok hall line hfit, ?_, by rw [hlen, hdef], by omega⟩
    rw [hlen]
    rfl
  · exact fun hall hbig => lsh_split_line_mem_overflow hall line hbig
  · rw [bufsizeFor_int_max]
    norm_num

set_option maxRecDepth 100000 in
/-- C10 on lines of 63, 64 and 128 tokens with every allocation granted and
`int` of 32 bits, on a line of 64 tokens when the block may not grow, and on
a line of 64 tokens if the largest `int` were 127. -/
theorem lsh_split_line_bounds_witness :
    lsh_split_line_mem (fun _ => true) INT_MAX (tokenLine 63) =
      .ok (tokenBlock (maximalRuns (tokenLine 63))) ∧
    (maximalRuns (tokenLine 63)).length = 63 ∧
    (tokenBlock (maximalRuns (tokenLine 63))).length = 64 ∧
    lsh_split_line_mem (fun _ => true) INT_MAX (tokenLine 64) =
      .ok (tokenBlock (maximalRuns (tokenLine 64))) ∧
    (maximalRuns (tokenLine 64)).length = 64 ∧
    (tokenBlock (maximalRuns (tokenLine 64))).length = 128 ∧
    lsh_split_line_mem (fun _ => true) INT_MAX (tokenLine 128) =
      .ok (tokenBlock (maximalRuns (tokenLine 128))) ∧
    (maximalRuns (tokenLine 128)).length = 128 ∧
    (tokenBlock (maximalRuns (tokenLine 128))).length = 192 ∧
    lsh_split_line_mem (os1.alloc world0) INT_MAX (tokenLine 64) = .error .alloc ∧
    lsh_split_line_mem (fun _ => true) 127 (tokenLine 64) = .error .overflow :=
  ⟨((lsh_split_line_bounds (fun _ => true) INT_MAX (tokenLine 63)).2.2.2.1
      (fun _ => rfl) (by decide)).1,
   by decide, by decide,
   ((lsh_split_line_bounds (fun _ => true) INT_MAX (tokenLine 64)).2.2.2.1
      (fun _ => rfl) (by decide)).1,
   by decide, by decide,
   ((lsh_split_line_bounds (fun _ => true) INT_MAX (tokenLine 128)).2.2.2.1
      (fun _ => rfl) (by decide)).1,
   by decide, by decide,
   by rfl,
   (lsh_split_line_bounds (fun _ => true) 127 (tokenLine 64)).2.2.2.2.1
      (fun _ => rfl) (by decide)⟩

/-- C10 fails as stated on a line of `2^31 - 64` tokens, every allocation
being granted: when the last token is stored `position` reaches `bufsize`,
which is `2^31 - 64`, and `bufsize += LSH_TOK_BUFSIZE` is beyond `INT_MAX`; no
block holding the tokens and a terminator is returned. -/
theorem lsh_split_line_overflows :
    lsh_split_line_mem (fun _ => true) INT_MAX (tokenLine (2 ^ 31 - 64)) = .error .overflow ∧
    (maximalRuns (tokenLine (2 ^ 31 - 64))).length = 2 ^ 31 - 64 ∧
    ¬ ∃ block, lsh_split_line_mem (fun _ => true) INT_MAX (tokenLine (2 ^ 31 - 64)) =
      .ok block := by
  have hlen : (maximalRuns (tokenLine (2 ^ 31 - 64))).length = 2 ^ 31 - 64 := by
    rw [maximalRuns_tokenLine, List.length_replicate]
  have hover : lsh_split_line_mem (fun _ => true) INT_MAX (tokenLine (2 ^ 31 - 64)) =
      .error .overflow := by
    apply lsh_split_line_mem_overflow (fun _ => rfl)
    rw [hlen]
    unfold bufsizeFor LSH_TOK_BUFSIZE INT_MAX
    norm_num
  refine ⟨hover, hlen, ?_⟩
  rintro ⟨block, hb⟩
  rw [hover] at hb
  cases hb

end Lsh
